import Mathlib

/-!
Verification of the bhlaspaceapiclient hierarchy traversal and
bulk-metadata-synthesis engine (src/bhlaspaceapiclient/client.py).

The Python client is shallowly embedded: JSON records become structures with
Option fields for optional keys, the remote ArchivesSpace backend becomes an
explicit association-list state, every blocking HTTP call becomes a lookup or
update on that state together with an appended request event, and every Python
exception path becomes an explicit error value.  Module-level mutable default
arguments (the accumulators of the two recursive tree walkers) are embedded as
explicit interpreter state.
-/

namespace BhlAspace

/-- A Python exception, at the granularity the client distinguishes:
dictionary key misses, list index misses, an object of the wrong type at a
join, a non-success HTTP status (CommunicationError), and the library's own
ArchivesSpaceError raised by update_aspace_object on a uri mismatch. -/
inductive PyError where
  | keyError
  | indexError
  | typeError
  | commError
  | aspaceError
deriving DecidableEq, Repr

/-- Result of a Python computation that can raise. -/
abbrev Res (α : Type) : Type := Except PyError α

/-- Truthiness of an optional string field, as Python evaluates
aspace_json.get(key): absent and empty string are both falsy. -/
def truthyOptStr : Option String → Bool
  | none => false
  | some s => !(s == "")

/-- Python str whitespace set used by str.strip(). -/
def isPySpace (c : Char) : Bool :=
  c == ' ' || c == '\t' || c == '\n' || c == '\r' || c == '\x0b' || c == '\x0c'

/-- Python str.strip(): drop whitespace from both ends. -/
def pythonStrip (s : String) : String :=
  String.mk (((s.data.dropWhile isPySpace).reverse.dropWhile isPySpace).reverse)

/-- One left-to-right pass embedding re.sub applied with the non-greedy tag
pattern of sanitize_title.  The state none means scanning ordinary text; some
buf means an opening angle bracket has been seen and buf holds the characters
met since then, newest first.  The pattern's dot matches neither a newline nor
the end of input, and the non-greedy quantifier stops at the first closing
bracket, so a closing bracket ends and erases the candidate, while a newline
or the end of input emits the opening bracket and the buffer verbatim (no
character in the buffer can start a shorter match, since no closing bracket
was seen before the failure point). -/
def stripTagsGo : Option (List Char) → List Char → List Char
  | none, [] => []
  | none, c :: rest =>
    if c == '<' then stripTagsGo (some []) rest
    else c :: stripTagsGo none rest
  | some buf, [] => '<' :: buf.reverse
  | some buf, c :: rest =>
    if c == '>' then stripTagsGo none rest
    else if c == '\n' then ('<' :: buf.reverse) ++ '\n' :: stripTagsGo none rest
    else stripTagsGo (some (c :: buf)) rest

/-- Removal of every shortest angle-bracketed newline-free run. -/
def stripTags (l : List Char) : List Char :=
  stripTagsGo none l

/-- sanitize_title from client.py: strip markup tags, then strip whitespace. -/
def sanitize_title (title : String) : String :=
  pythonStrip (String.mk (stripTags title.data))

/-- One entry of a record's dates list. -/
structure DateEntry where
  date_type : String
  expression : Option String
  begin : Option String
  end_ : Option String
deriving DecidableEq, Repr

/-- The per-entry effective expression computed inside format_dates:
the expression verbatim when truthy, else begin-end when both are truthy,
else begin when truthy, else the empty string. -/
def effective_expression (d : DateEntry) : String :=
  let expression := d.expression.getD ""
  if expression ≠ "" then expression
  else
    let b := d.begin.getD ""
    let e := d.end_.getD ""
    if b ≠ "" ∧ e ≠ "" then b ++ "-" ++ e
    else if b ≠ "" then b
    else ""

/-- The accumulating loop of format_dates: partition every entry by date_type
into the inclusive and bulk lists, appending the stripped effective expression
(empty or not) to the matching list. -/
def format_dates_loop : List DateEntry → List String → List String → List String × List String
  | [], incl, bulk => (incl, bulk)
  | d :: rest, incl, bulk =>
    let expression := effective_expression d
    let incl1 := if d.date_type = "inclusive" then incl ++ [pythonStrip expression] else incl
    let bulk1 := if d.date_type = "bulk" then bulk ++ [pythonStrip expression] else bulk
    format_dates_loop rest incl1 bulk1

/-- A child element of a note's parsed markup, as the lxml collaborator
surfaces it to the expiry sweep: a tag name and an attribute dictionary. -/
structure XmlElem where
  tag : String
  attrs : List (String × String)
deriving DecidableEq, Repr

/-- A note content string together with its parse by the external lxml
collaborator: raw is the string itself (what the text-match sweep compares and
what the change log stores); children are the child elements obtained when the
string is wrapped in accessrestrict tags and parsed (what the expiry sweep
inspects through the ./date xpath). -/
structure Markup where
  raw : String
  children : List XmlElem
deriving DecidableEq, Repr

/-- One subnote of a multipart note; its content is the markup string the
sweeps format. -/
structure Subnote where
  content : Markup
deriving DecidableEq, Repr

/-- A note of a record.  jsonmodel_type, publish, content and subnotes are
required by the ArchivesSpace schema and embedded as total fields; type is
read through dict.get in find_notes_by_type and through a raising key access
in the sweeps, so it stays optional. -/
structure Note where
  type : Option String
  publish : Bool
  jsonmodel_type : String
  content : List Markup
  subnotes : List Subnote
deriving DecidableEq, Repr

/-- An instance attached to an archival object.  The two reference fields
embed the nested key paths instance.digital_object.ref and
instance.sub_container.top_container.ref; none means the path is absent and a
direct access raises KeyError. -/
structure Instance where
  instance_type : String
  digital_object_ref : Option String
  top_container_ref : Option String
deriving DecidableEq, Repr

/-- A full ArchivesSpace record as the client consumes it: archival objects,
top containers and digital objects all share this shape, with the fields a
given kind does not carry left as none or empty. -/
structure Record where
  uri : String
  title : Option String
  dates : Option (List DateEntry)
  notes : List Note
  parent : Option String
  display_string : Option String
  instances : List Instance
  linked_instances : Option (List String)
  collection : Option (List String)
deriving DecidableEq, Repr

/-- Truthiness of an optional dates list, as Python evaluates
aspace_json.get(key): absent and the empty list are both falsy. -/
def truthyDates : Option (List DateEntry) → Bool
  | none => false
  | some l => !l.isEmpty

/-- format_dates from client.py: partition the dates list, comma-join the
inclusive expressions, and append a parenthetical with the first bulk
expression when any bulk entry exists; no dates yields the empty string. -/
def format_dates (j : Record) : String :=
  match j.dates with
  | none => ""
  | some ds =>
    if ds.isEmpty then ""
    else
      let p := format_dates_loop ds [] []
      let dates := String.intercalate ", " p.1
      match p.2 with
      | [] => dates
      | b0 :: _ => dates ++ " (bulk " ++ b0 ++ ")"

mutual

/-- One node of the lightweight tree projection returned whole by the
resource tree endpoint. -/
inductive TreeNode : Type where
  | node : (record_uri : String) → (has_children : Bool) →
      (instance_types : List String) → (children : TreeList) → TreeNode

/-- An ordered children sequence of the tree projection.  A dedicated list
type keeps the mutual recursion with TreeNode structural, so that the
embedded walkers compute by reduction. -/
inductive TreeList : Type where
  | nil : TreeList
  | cons : TreeNode → TreeList → TreeList

end

/-- One request the client sends to the backend, recorded in order. -/
inductive Event where
  | get (uri : String)
  | post (uri : String)
  | delete (uri : String)
deriving DecidableEq, Repr

/-- The remote ArchivesSpace backend together with the chronological request
log: records keyed by uri, resource trees keyed by resource number, and the
metadata_for_container endpoint's answer keyed by container id. -/
structure Backend where
  records : List (String × Record)
  trees : List (Nat × TreeList)
  container_metadata : List (Nat × List String)
  events : List Event

/-- Association-list lookup keyed by uri, as the backend resolves a GET. -/
def lookupR (u : String) : List (String × Record) → Option Record
  | [] => none
  | (k, r) :: rest => if k = u then some r else lookupR u rest

/-- Association-list update: replace the record at the key, or append it. -/
def updateR (u : String) (r : Record) : List (String × Record) → List (String × Record)
  | [] => [(u, r)]
  | (k, v) :: rest => if k = u then (u, r) :: rest else (k, v) :: updateR u r rest

/-- Association-list removal of every entry at the key. -/
def removeR (u : String) : List (String × Record) → List (String × Record)
  | [] => []
  | (k, v) :: rest => if k = u then removeR u rest else (k, v) :: removeR u rest

/-- Nat-keyed association lookup for trees and container metadata. -/
def lookupN {α : Type} (n : Nat) : List (Nat × α) → Option α
  | [] => none
  | (k, v) :: rest => if k = n then some v else lookupN n rest

/-- get_aspace_json: one GET for a record uri.  The request is logged, then a
missing record raises CommunicationError (non-200 status). -/
def aspace_get (b : Backend) (uri : String) : Backend × Res Record :=
  let b1 : Backend := { b with events := b.events ++ [Event.get uri] }
  match lookupR uri b.records with
  | some r => (b1, Except.ok r)
  | none => (b1, Except.error PyError.commError)

/-- session.post of a whole record, as the sweeps issue it directly: the
backend stores the record under the uri and the request is logged. -/
def session_post (b : Backend) (uri : String) (r : Record) : Backend :=
  { b with records := updateR uri r b.records,
           events := b.events ++ [Event.post uri] }

/-- delete_aspace_object: the DELETE request is logged and the record removed;
a missing record raises CommunicationError (404). -/
def aspace_delete (b : Backend) (uri : String) : Backend × Res Unit :=
  let b1 : Backend := { b with records := removeR uri b.records,
                               events := b.events ++ [Event.delete uri] }
  match lookupR uri b.records with
  | some _ => (b1, Except.ok ())
  | none => (b1, Except.error PyError.commError)

/-- update_aspace_object: post the record back only when the supplied uri
matches the record's own uri field, else raise ArchivesSpaceError. -/
def update_aspace_object (b : Backend) (uri : String) (r : Record) : Backend × Res Unit :=
  if uri = r.uri then (session_post b uri r, Except.ok ())
  else (b, Except.error PyError.aspaceError)

/-- The uri of the resource tree endpoint for a resource number. -/
def tree_uri (rn : Nat) : String :=
  "/resources/" ++ toString rn ++ "/tree"

/-- get_resource_tree: one GET returning the whole children projection. -/
def get_resource_tree (b : Backend) (rn : Nat) : Backend × Res TreeList :=
  let b1 : Backend := { b with events := b.events ++ [Event.get (tree_uri rn)] }
  match lookupN rn b.trees with
  | some t => (b1, Except.ok t)
  | none => (b1, Except.error PyError.commError)

/-- The uri of the metadata_for_container endpoint for a container id. -/
def container_metadata_uri (cid : Nat) : String :=
  "/metadata_for_container/" ++ toString cid

/-- get_metadata_for_container: one GET returning the archival_object_uri list
of the archival objects the backend reports as referencing the container. -/
def get_metadata_for_container (b : Backend) (cid : Nat) : Backend × Res (List String) :=
  let b1 : Backend := { b with events := b.events ++ [Event.get (container_metadata_uri cid)] }
  match lookupN cid b.container_metadata with
  | some l => (b1, Except.ok l)
  | none => (b1, Except.error PyError.commError)

/-- The uri of a top container record, as merge_top_containers formats it. -/
def top_container_uri (cid : Nat) : String :=
  "/top_containers/" ++ toString cid

/-- extract_archival_object_uris_from_children, given the accumulator list the
call receives: append each child's record_uri in pre-order, recursing into a
child's children whenever has_children is set, and return the accumulator.
In Python the appends mutate the received list in place and the same object is
returned; the wrapper below captures the module-level default binding. -/
def extract_archival_object_uris_from_children :
    TreeList → List String → List String
  | TreeList.nil, acc => acc
  | TreeList.cons (TreeNode.node u hc _ cs) rest, acc =>
    let acc1 := acc ++ [u]
    let acc2 := if hc then extract_archival_object_uris_from_children cs acc1 else acc1
    extract_archival_object_uris_from_children rest acc2

/-- find_children_with_instances, given the accumulator list the call
receives: append a child's record_uri when its instance_types list is truthy
and either a truthy filter is a member of it or no truthy filter was given;
recurse into children whenever has_children is set. -/
def find_children_with_instances :
    TreeList → List String → Option String → List String
  | TreeList.nil, acc, _ => acc
  | TreeList.cons (TreeNode.node u hc its cs) rest, acc, itf =>
    let acc1 :=
      if !its.isEmpty then
        if truthyOptStr itf && its.contains (itf.getD "") then acc ++ [u]
        else if !(truthyOptStr itf) then acc ++ [u]
        else acc
      else acc
    let acc2 := if hc then find_children_with_instances cs acc1 itf else acc1
    find_children_with_instances rest acc2 itf

/-- The module-level default argument objects of the two recursive walkers.
Python binds each default list once at function definition time; because the
functions append to the list they received, a top-level call made without an
explicit accumulator both reads and permanently grows these objects. -/
structure Defaults where
  extract_default : List String
  find_default : List String
deriving DecidableEq, Repr

/-- The default-argument state of a freshly imported module: both lists empty. -/
def freshDefaults : Defaults := { extract_default := [], find_default := [] }

/-- A top-level call of the uri extractor that passes no accumulator: the
default list is used, mutated, and returned, so the next such call starts
from the returned value. -/
def extract_uris_toplevel (d : Defaults) (children : TreeList) :
    List String × Defaults :=
  let r := extract_archival_object_uris_from_children children d.extract_default
  (r, { d with extract_default := r })

/-- A top-level call of the tree walker that passes no accumulator: the
default list is used, mutated, and returned. -/
def find_children_toplevel (d : Defaults) (children : TreeList)
    (instance_type : Option String) : List String × Defaults :=
  let r := find_children_with_instances children d.find_default instance_type
  (r, { d with find_default := r })

/-- Pre-order flattening of a children sequence: each node's uri, then its
children's flattening when has_children is set. -/
def flatList : TreeList → List String
  | TreeList.nil => []
  | TreeList.cons (TreeNode.node u hc _ cs) rest =>
    (u :: (if hc then flatList cs else [])) ++ flatList rest

/-- Qualifying-node selection of a children sequence: each node's uri when
its instance_types is truthy and the filter admits it, then its children's
selection when has_children is set. -/
def findList (itf : Option String) : TreeList → List String
  | TreeList.nil => []
  | TreeList.cons (TreeNode.node u hc its cs) rest =>
    ((if !its.isEmpty &&
        (truthyOptStr itf && its.contains (itf.getD "") || !(truthyOptStr itf))
      then [u] else []) ++
     (if hc then findList itf cs else [])) ++ findList itf rest

/-- make_display_string from client.py.  The result is an Option because the
Python function falls through with None when neither title nor dates is
truthy; case 4 performs one parent fetch and reads the parent's stored
display_string field (raising KeyError when the parent key or the
display_string key is absent). -/
def make_display_string (b : Backend) (j : Record) (add_parent_title : Bool) :
    Backend × Res (Option String) :=
  if truthyOptStr j.title && truthyDates j.dates then
    (b, Except.ok (some (sanitize_title (j.title.getD "") ++ ", " ++ format_dates j)))
  else if truthyOptStr j.title && !truthyDates j.dates then
    (b, Except.ok (some (sanitize_title (j.title.getD ""))))
  else if truthyDates j.dates && !truthyOptStr j.title then
    if add_parent_title then
      match j.parent with
      | none => (b, Except.error PyError.keyError)
      | some pref =>
        match aspace_get b pref with
        | (b1, Except.error e) => (b1, Except.error e)
        | (b1, Except.ok pj) =>
          match pj.display_string with
          | none => (b1, Except.error PyError.keyError)
          | some ds =>
            (b1, Except.ok (some (sanitize_title ds ++ ", " ++ format_dates j)))
    else (b, Except.ok (some (format_dates j)))
  else (b, Except.ok none)

/-- format_note from client.py: a singlepart note surfaces its first content
string, any other note surfaces its first subnote's content; an empty content
or subnotes list raises IndexError. -/
def format_note (note : Note) : Res Markup :=
  if note.jsonmodel_type = "note_singlepart" then
    match note.content with
    | [] => Except.error PyError.indexError
    | c :: _ => Except.ok c
  else
    match note.subnotes with
    | [] => Except.error PyError.indexError
    | s :: _ => Except.ok s.content

/-- Joining the collected parent display strings: Python str.flatten raises
TypeError when an element is None (a parent with neither title nor dates). -/
def join_display : List (Option String) → Res (List String)
  | [] => Except.ok []
  | none :: _ => Except.error PyError.typeError
  | some s :: rest =>
    match join_display rest with
    | Except.error e => Except.error e
    | Except.ok ss => Except.ok (s :: ss)

/-- The while loop of build_hierarchy, bounded by fuel: while the current
record's parent key is truthy, fetch the parent, compute its display string
and append it.  none means the loop has not exited within the given number of
iterations — the source loop carries no cycle guard, so on a cyclic parent
chain this holds for every fuel. -/
def build_hierarchy_loop (fuel : Nat) (b : Backend) (j : Record)
    (acc : List (Option String)) :
    Option (Backend × Res (List (Option String))) :=
  match j.parent with
  | none => some (b, Except.ok acc)
  | some pref =>
    match fuel with
    | 0 => none
    | fuel1 + 1 =>
      match aspace_get b pref with
      | (b1, Except.error e) => some (b1, Except.error e)
      | (b1, Except.ok pj) =>
        match make_display_string b1 pj false with
        | (b2, Except.error e) => some (b2, Except.error e)
        | (b2, Except.ok pt) => build_hierarchy_loop fuel1 b2 pj (acc ++ [pt])

/-- build_hierarchy from client.py, with the unbounded while loop run on the
given fuel: collect each ancestor's display string walking parent references
upward, reverse the list, and join with the spaced delimiter; an empty list
yields the empty string.  none means the walk did not terminate within fuel
iterations. -/
def build_hierarchy (b : Backend) (fuel : Nat) (j : Record) (delimiter : String) :
    Option (Backend × Res String) :=
  match build_hierarchy_loop fuel b j [] with
  | none => none
  | some (b1, Except.error e) => some (b1, Except.error e)
  | some (b1, Except.ok parent_titles) =>
    match join_display parent_titles.reverse with
    | Except.error e => some (b1, Except.error e)
    | Except.ok titles =>
      if titles.isEmpty then some (b1, Except.ok "")
      else some (b1, Except.ok (String.intercalate (" " ++ delimiter ++ " ") titles))

/-- The instance rewrite inside merge_top_containers: the list comprehension
reads every instance's sub_container.top_container.ref (KeyError when the path
is absent), then each matching instance's ref is set to the target uri. -/
def repoint_instances (source target : String) : List Instance → Res (List Instance)
  | [] => Except.ok []
  | i :: rest =>
    match i.top_container_ref with
    | none => Except.error PyError.keyError
    | some r =>
      match repoint_instances source target rest with
      | Except.error e => Except.error e
      | Except.ok rest1 =>
        Except.ok ((if r = source then { i with top_container_ref := some target } else i)
          :: rest1)

/-- The per-instance effect of the merge rewrite, total form: an instance
whose top container ref equals the source is repointed at the target, any
other instance is unchanged. -/
def repoint_pure (source target : String) (i : Instance) : Instance :=
  match i.top_container_ref with
  | some r => if r = source then { i with top_container_ref := some target } else i
  | none => i

/-- The per-object loop of merge_top_containers: fetch each referencing
archival object, rewrite its instances, and write the whole record back. -/
def merge_loop (source target : String) : Backend → List String → Backend × Res Unit
  | b, [] => (b, Except.ok ())
  | b, uri :: rest =>
    match aspace_get b uri with
    | (b1, Except.error e) => (b1, Except.error e)
    | (b1, Except.ok ao) =>
      match repoint_instances source target ao.instances with
      | Except.error e => (b1, Except.error e)
      | Except.ok insts =>
        match update_aspace_object b1 uri { ao with instances := insts } with
        | (b2, Except.error e) => (b2, Except.error e)
        | (b2, Except.ok _) => merge_loop source target b2 rest

/-- merge_top_containers from client.py: look up the archival objects the
backend reports for the source container, repoint every matching instance of
each to the target and write each record back, then delete the source
container. -/
def merge_top_containers (b : Backend) (source_id target_id : Nat) : Backend × Res Unit :=
  match get_metadata_for_container b source_id with
  | (b1, Except.error e) => (b1, Except.error e)
  | (b1, Except.ok archival_object_uris) =>
    let source_uri := top_container_uri source_id
    let target_uri := top_container_uri target_id
    match merge_loop source_uri target_uri b1 archival_object_uris with
    | (b2, Except.error e) => (b2, Except.error e)
    | (b2, Except.ok _) =>
      match aspace_delete b2 source_uri with
      | (b3, Except.error e) => (b3, Except.error e)
      | (b3, Except.ok _) => (b3, Except.ok ())

/-- Substring membership on character lists, as the Python in operator tests
a uri for a path fragment. -/
def infixOf (pat : List Char) : List Char → Bool
  | [] => pat.isEmpty
  | c :: rest => pat.isPrefixOf (c :: rest) || infixOf pat rest

/-- The Python test pat in s on strings. -/
def strContains (s pat : String) : Bool :=
  infixOf pat.data s.data

/-- delete_single_resource_instances from client.py: a uri naming a digital
object is fetched and deleted only when its linked_instances count is one; a
uri naming a top container is fetched and deleted only when its collection
count is one; any other uri is ignored. -/
def delete_single_resource_instances (b : Backend) (instance_uri : String) :
    Backend × Res Unit :=
  if strContains instance_uri "digital_objects" then
    match aspace_get b instance_uri with
    | (b1, Except.error e) => (b1, Except.error e)
    | (b1, Except.ok digital_object) =>
      match digital_object.linked_instances with
      | none => (b1, Except.error PyError.keyError)
      | some li =>
        if li.length = 1 then aspace_delete b1 instance_uri
        else (b1, Except.ok ())
  else if strContains instance_uri "top_containers" then
    match aspace_get b instance_uri with
    | (b1, Except.error e) => (b1, Except.error e)
    | (b1, Except.ok top_container) =>
      match top_container.collection with
      | none => (b1, Except.error PyError.keyError)
      | some col =>
        if col.length = 1 then aspace_delete b1 instance_uri
        else (b1, Except.ok ())
  else (b, Except.ok ())

/-- The reference collection of find_instance_uris: each instance yields its
digital_object ref when its type is digital_object, else its
sub_container.top_container ref; a missing path raises KeyError. -/
def collect_instance_refs : List Instance → Res (List String)
  | [] => Except.ok []
  | i :: rest =>
    let ref1 : Res String :=
      if i.instance_type = "digital_object" then
        match i.digital_object_ref with
        | none => Except.error PyError.keyError
        | some r => Except.ok r
      else
        match i.top_container_ref with
        | none => Except.error PyError.keyError
        | some r => Except.ok r
    match ref1 with
    | Except.error e => Except.error e
    | Except.ok r =>
      match collect_instance_refs rest with
      | Except.error e => Except.error e
      | Except.ok rs => Except.ok (r :: rs)

/-- find_instance_uris from client.py: fetch the record, optionally filter
its instances by a truthy instance_type, and collect each one's reference. -/
def find_instance_uris (b : Backend) (aspace_uri : String) (instance_type : Option String) :
    Backend × Res (List String) :=
  match aspace_get b aspace_uri with
  | (b1, Except.error e) => (b1, Except.error e)
  | (b1, Except.ok j) =>
    let instances :=
      if truthyOptStr instance_type then
        j.instances.filter (fun i => i.instance_type == instance_type.getD "")
      else j.instances
    (b1, collect_instance_refs instances)

/-- The accumulation loop of remove_resource_associations: extend the
instance uri list with each qualifying child's references, in child order. -/
def collect_children_instance_uris (b : Backend) : List String → Backend × Res (List String)
  | [] => (b, Except.ok [])
  | u :: rest =>
    match find_instance_uris b u none with
    | (b1, Except.error e) => (b1, Except.error e)
    | (b1, Except.ok l1) =>
      match collect_children_instance_uris b1 rest with
      | (b2, Except.error e) => (b2, Except.error e)
      | (b2, Except.ok l2) => (b2, Except.ok (l1 ++ l2))

/-- First-occurrence deduplication standing in for the Python set() built
over the instance uris.  CPython iterates a set in an unspecified order; the
claims proved below are insensitive to the order, only to the deduplicated
membership. -/
def pySetAux (seen : List String) : List String → List String
  | [] => []
  | x :: rest => if x ∈ seen then pySetAux seen rest else x :: pySetAux (x :: seen) rest

/-- Deduplicated uri set, first occurrences first. -/
def pySet (l : List String) : List String :=
  pySetAux [] l

/-- The deletion loop over the deduplicated uri set. -/
def delete_instance_loop (b : Backend) : List String → Backend × Res Unit
  | [] => (b, Except.ok ())
  | u :: rest =>
    match delete_single_resource_instances b u with
    | (b1, Except.error e) => (b1, Except.error e)
    | (b1, Except.ok _) => delete_instance_loop b1 rest

/-- The whole client-process state: the backend and the module-level default
argument objects of the two walkers. -/
structure World where
  backend : Backend
  defaults : Defaults

/-- remove_resource_associations from client.py: fetch the tree, walk it for
children with instances (a top-level walker call on the shared default
accumulator), collect and deduplicate their instance references, and delete
each unshared referenced object. -/
def remove_resource_associations (w : World) (resource_number : Nat) : World × Res Unit :=
  match get_resource_tree w.backend resource_number with
  | (b1, Except.error e) => ({ w with backend := b1 }, Except.error e)
  | (b1, Except.ok children) =>
    let fd := find_children_toplevel w.defaults children none
    match collect_children_instance_uris b1 fd.1 with
    | (b2, Except.error e) => ({ backend := b2, defaults := fd.2 }, Except.error e)
    | (b2, Except.ok instance_uris) =>
      match delete_instance_loop b2 (pySet instance_uris) with
      | (b3, res) => ({ backend := b3, defaults := fd.2 }, res)

/-- One entry of the ordered change log both restriction sweeps build. -/
structure LogEntry where
  uri : String
  title : String
  restriction : Markup
deriving DecidableEq, Repr

/-- get_resource_archival_object_uris from client.py: fetch the tree and run
a top-level call of the uri extractor on the shared default accumulator. -/
def get_resource_archival_object_uris (w : World) (resource_number : Nat) :
    World × Res (List String) :=
  match get_resource_tree w.backend resource_number with
  | (b1, Except.error e) => ({ w with backend := b1 }, Except.error e)
  | (b1, Except.ok children) =>
    let ed := extract_uris_toplevel w.defaults children
    ({ backend := b1, defaults := ed.2 }, Except.ok ed.1)

/-- Lexicographic comparison by code point on character lists, as Python
compares strings.  (Defined directly over the characters so that concrete
comparisons compute by reduction.) -/
def pyStrLtChars : List Char → List Char → Bool
  | [], [] => false
  | [], _ :: _ => true
  | _ :: _, [] => false
  | c :: cs, d :: ds => if c < d then true else if d < c then false else pyStrLtChars cs ds

/-- The Python operator a < b on strings. -/
def pyStrLt (a b : String) : Bool :=
  pyStrLtChars a.data b.data

/-- The ./date xpath over a formatted note's parse: the child elements whose
tag is date. -/
def date_elems (m : Markup) : List XmlElem :=
  m.children.filter (fun e => e.tag == "date")

/-- The expiry sweep's per-note processing: a published accessrestrict note is
formatted and its markup searched for a date element; when the element's
normal attribute is lexically before today, the note is unpublished and a log
entry built from the record's display_string is produced.  Reading an absent
type key, normal attribute or display_string raises KeyError. -/
def expiry_note (today uri : String) (ao : Record) (n : Note) :
    Res (Note × Option LogEntry) :=
  match n.type with
  | none => Except.error PyError.keyError
  | some t =>
    if t = "accessrestrict" ∧ n.publish = true then
      match format_note n with
      | Except.error e => Except.error e
      | Except.ok m =>
        match date_elems m with
        | [] => Except.ok (n, none)
        | d :: _ =>
          match d.attrs.lookup "normal" with
          | none => Except.error PyError.keyError
          | some normal =>
            if pyStrLt normal today then
              match ao.display_string with
              | none => Except.error PyError.keyError
              | some title =>
                Except.ok ({ n with publish := false },
                  some { uri := uri, title := title, restriction := m })
            else Except.ok (n, none)
    else Except.ok (n, none)

/-- The expiry sweep's loop over one record's notes, in order: the rewritten
notes, whether any changed, and the log entries produced. -/
def expiry_notes (today uri : String) (ao : Record) :
    List Note → Res (List Note × Bool × List LogEntry)
  | [] => Except.ok ([], false, [])
  | n :: rest =>
    match expiry_note today uri ao n with
    | Except.error e => Except.error e
    | Except.ok (n1, entry) =>
      match expiry_notes today uri ao rest with
      | Except.error e => Except.error e
      | Except.ok (rest1, ch, log) =>
        Except.ok (n1 :: rest1, entry.isSome || ch,
          match entry with
          | some l => l :: log
          | none => log)

/-- The expiry sweep's per-record step: fetch the record, process its notes,
and post the whole record back exactly when some note changed. -/
def expiry_record (b : Backend) (today uri : String) : Backend × Res (List LogEntry) :=
  match aspace_get b uri with
  | (b1, Except.error e) => (b1, Except.error e)
  | (b1, Except.ok ao) =>
    match expiry_notes today uri ao ao.notes with
    | Except.error e => (b1, Except.error e)
    | Except.ok (notes1, changed, log) =>
      (if changed then session_post b1 uri { ao with notes := notes1 } else b1,
       Except.ok log)

/-- The expiry sweep's loop over the extracted archival object uris. -/
def expiry_sweep (b : Backend) (today : String) : List String → Backend × Res (List LogEntry)
  | [] => (b, Except.ok [])
  | uri :: rest =>
    match expiry_record b today uri with
    | (b1, Except.error e) => (b1, Except.error e)
    | (b1, Except.ok log1) =>
      match expiry_sweep b1 today rest with
      | (b2, Except.error e) => (b2, Except.error e)
      | (b2, Except.ok log2) => (b2, Except.ok (log1 ++ log2))

/-- unpublish_expired_restrictions_for_resource from client.py.  The current
date, which Python reads from the clock at entry as a fixed-width ISO string,
is passed as the today argument. -/
def unpublish_expired_restrictions_for_resource (w : World) (today : String)
    (resource_number : Nat) : World × Res (List LogEntry) :=
  match get_resource_archival_object_uris w resource_number with
  | (w1, Except.error e) => (w1, Except.error e)
  | (w1, Except.ok uris) =>
    match expiry_sweep w1.backend today uris with
    | (b2, res) => ({ w1 with backend := b2 }, res)

/-- The text-match sweep's per-note processing: a published accessrestrict
note is unpublished exactly when its formatted text equals the target. -/
def text_note (target uri : String) (ao : Record) (n : Note) :
    Res (Note × Option LogEntry) :=
  match n.type with
  | none => Except.error PyError.keyError
  | some t =>
    if t = "accessrestrict" ∧ n.publish = true then
      match format_note n with
      | Except.error e => Except.error e
      | Except.ok m =>
        if m.raw = target then
          match ao.display_string with
          | none => Except.error PyError.keyError
          | some title =>
            Except.ok ({ n with publish := false },
              some { uri := uri, title := title, restriction := m })
        else Except.ok (n, none)
    else Except.ok (n, none)

/-- The text-match sweep's loop over one record's notes, in order. -/
def text_notes (target uri : String) (ao : Record) :
    List Note → Res (List Note × Bool × List LogEntry)
  | [] => Except.ok ([], false, [])
  | n :: rest =>
    match text_note target uri ao n with
    | Except.error e => Except.error e
    | Except.ok (n1, entry) =>
      match text_notes target uri ao rest with
      | Except.error e => Except.error e
      | Except.ok (rest1, ch, log) =>
        Except.ok (n1 :: rest1, entry.isSome || ch,
          match entry with
          | some l => l :: log
          | none => log)

/-- The text-match sweep's per-record step. -/
def text_record (b : Backend) (target uri : String) : Backend × Res (List LogEntry) :=
  match aspace_get b uri with
  | (b1, Except.error e) => (b1, Except.error e)
  | (b1, Except.ok ao) =>
    match text_notes target uri ao ao.notes with
    | Except.error e => (b1, Except.error e)
    | Except.ok (notes1, changed, log) =>
      (if changed then session_post b1 uri { ao with notes := notes1 } else b1,
       Except.ok log)

/-- The text-match sweep's loop over the extracted archival object uris. -/
def text_sweep (b : Backend) (target : String) : List String → Backend × Res (List LogEntry)
  | [] => (b, Except.ok [])
  | uri :: rest =>
    match text_record b target uri with
    | (b1, Except.error e) => (b1, Except.error e)
    | (b1, Except.ok log1) =>
      match text_sweep b1 target rest with
      | (b2, Except.error e) => (b2, Except.error e)
      | (b2, Except.ok log2) => (b2, Except.ok (log1 ++ log2))

/-- What unpublish_restrictions_by_text returns: either the early report
string when no restriction text was supplied, or the change log. -/
inductive TextSweepOut where
  | message (s : String)
  | log (entries : List LogEntry)
deriving DecidableEq, Repr

/-- unpublish_restrictions_by_text from client.py: with a falsy restriction
text (the False default or an empty string) the function returns a report
string before touching the backend; otherwise it extracts the uris and runs
the text-match sweep. -/
def unpublish_restrictions_by_text (w : World) (resource_number : Nat)
    (restriction_text : Option String) : World × Res TextSweepOut :=
  if truthyOptStr restriction_text = false then
    (w, Except.ok (TextSweepOut.message "No restriction text provided"))
  else
    match get_resource_archival_object_uris w resource_number with
    | (w1, Except.error e) => (w1, Except.error e)
    | (w1, Except.ok uris) =>
      match text_sweep w1.backend (restriction_text.getD "") uris with
      | (b2, Except.error e) => ({ w1 with backend := b2 }, Except.error e)
      | (b2, Except.ok log) => ({ w1 with backend := b2 }, Except.ok (TextSweepOut.log log))

/-- A record with every optional field absent and every list empty, the base
of the concrete records used below. -/
def blankRecord : Record :=
  { uri := "", title := none, dates := none, notes := [], parent := none,
    display_string := none, instances := [], linked_instances := none, collection := none }

/-- A backend with no records, trees, metadata or logged events, the base of
the concrete backends used below. -/
def blankBackend : Backend :=
  { records := [], trees := [], container_metadata := [], events := [] }

/-- The strengthened variant of the date formatter written from the claim's
own words, for comparison with the source embedding: only the NON-EMPTY
trimmed inclusive expressions are joined. -/
def format_dates_claim (j : Record) : String :=
  match j.dates with
  | none => ""
  | some ds =>
    if ds.isEmpty then ""
    else
      let incl := ((ds.filter (fun d => d.date_type == "inclusive")).map
        (fun d => pythonStrip (effective_expression d))).filter (fun s => !(s == ""))
      let bulk := (ds.filter (fun d => d.date_type == "bulk")).map
        (fun d => pythonStrip (effective_expression d))
      String.intercalate ", " incl ++
        (match bulk with
         | [] => ""
         | b0 :: _ => " (bulk " ++ b0 ++ ")")

/-- The date formatter's behavior restated declaratively, exactly as the
source computes it: ALL trimmed inclusive expressions are joined, empty ones
included. -/
def format_dates_amended (j : Record) : String :=
  match j.dates with
  | none => ""
  | some ds =>
    if ds.isEmpty then ""
    else
      let incl := (ds.filter (fun d => d.date_type == "inclusive")).map
        (fun d => pythonStrip (effective_expression d))
      let bulk := (ds.filter (fun d => d.date_type == "bulk")).map
        (fun d => pythonStrip (effective_expression d))
      String.intercalate ", " incl ++
        (match bulk with
         | [] => ""
         | b0 :: _ => " (bulk " ++ b0 ++ ")")

/-- A record with one inclusive entry reading 1900 and one inclusive entry
with no expression, begin or end. -/
def c3_record : Record :=
  { blankRecord with dates := some (
      [ { date_type := "inclusive", expression := some "1900",
          begin := none, end_ := none },
        { date_type := "inclusive", expression := none,
          begin := none, end_ := none } ]) }

/-- The one-node tree on which the shared default accumulator shows. -/
def c1_tree : TreeList :=
  TreeList.cons (TreeNode.node "/ao/1" false ["top_container"] TreeList.nil) TreeList.nil

/-- The first record of a two-element parent cycle. -/
def c2_record_A : Record :=
  { blankRecord with uri := "/ao/A", title := some "Record A", parent := some "/ao/B" }

/-- The second record of a two-element parent cycle. -/
def c2_record_B : Record :=
  { blankRecord with uri := "/ao/B", title := some "Record B", parent := some "/ao/A" }

/-- A backend whose two records form a parent cycle: A's parent is B and B's
parent is A. -/
def c2_backend : Backend :=
  { blankBackend with records := [("/ao/A", c2_record_A), ("/ao/B", c2_record_B)] }

/-- The parent record of the C6 witness, carrying a stored display string with
markup. -/
def c6_parent : Record :=
  { blankRecord with
    uri := "/ao/P",
    display_string := some " <span>Parent</span> Papers " }

/-- The dates-only child record of the C6 witness. -/
def c6_child : Record :=
  { blankRecord with
    uri := "/ao/C",
    parent := some "/ao/P",
    dates := some ([ { date_type := "inclusive", expression := some "1900",
                       begin := none, end_ := none } ]) }

/-- The titled record of the C6 witness. -/
def c6_titled : Record :=
  { blankRecord with
    uri := "/ao/T",
    title := some " <em>Letters</em> ",
    dates := some ([ { date_type := "inclusive", expression := some "1900",
                       begin := none, end_ := none } ]) }

/-- The backend of the C6 witness. -/
def c6_backend : Backend :=
  { blankBackend with records := [("/ao/P", c6_parent)] }

/-- Whether the text-match sweep unpublishes a note: published accessrestrict
whose formatted text equals the target. -/
def text_matches (target : String) (n : Note) : Bool :=
  (n.type == some "accessrestrict") && n.publish &&
    (match format_note n with
     | Except.ok m => m.raw == target
     | Except.error _ => false)

/-- A record none of whose notes the text-match sweep would unpublish. -/
def recordClean (target : String) (r : Record) : Prop :=
  ∀ n ∈ r.notes, text_matches target n = false

/-- One record derives from another by only unpublishing some of its notes. -/
def recordUnpubOf (r1 r : Record) : Prop :=
  r1 = { r with notes := r1.notes } ∧
  List.Forall₂ (fun n1 n => n1 = n ∨ n1 = { n with publish := false }) r1.notes r.notes

/-- One backend derives from another by only unpublishing notes of records:
every uri either resolves identically or to a record whose publish flags only
went from set to unset. -/
def backendUnpubOf (b1 b : Backend) : Prop :=
  ∀ u, lookupR u b1.records = lookupR u b.records ∨
    ∃ r1 r, lookupR u b1.records = some r1 ∧ lookupR u b.records = some r ∧
      recordUnpubOf r1 r

/-- The published accessrestrict note of the C7 witness world. -/
def c7_note : Note :=
  { type := some "accessrestrict", publish := true, jsonmodel_type := "note_singlepart",
    content := [ { raw := "Closed.", children := [] } ], subnotes := [] }

/-- The archival object of the C7 witness world. -/
def c7_record : Record :=
  { blankRecord with
    uri := "/ao/1",
    display_string := some "Folder 1",
    notes := [c7_note] }

/-- The one-node resource tree of the C7 witness world. -/
def c7_tree : TreeList :=
  TreeList.cons (TreeNode.node "/ao/1" false [] TreeList.nil) TreeList.nil

/-- The C7 witness world: one resource whose only archival object carries one
published accessrestrict note reading Closed. -/
def c7_world : World :=
  { backend := { blankBackend with
      records := [("/ao/1", c7_record)],
      trees := [(1, c7_tree)] },
    defaults := freshDefaults }

/-- Whether the expiry sweep unpublishes a note: published accessrestrict
whose formatted markup has a date child element carrying a normal attribute
lexically strictly before today (String ordering is lexicographic by code
point, as Python string comparison is). -/
def expiry_matches (today : String) (n : Note) : Bool :=
  (n.type == some "accessrestrict") && n.publish &&
    (match format_note n with
     | Except.ok m =>
       match date_elems m with
       | d :: _ =>
         match d.attrs.lookup "normal" with
         | some a => pyStrLt a today
         | none => false
       | [] => false
     | Except.error _ => false)

/-- The log entry the expiry sweep produces for one note, none when the note
is not unpublished. -/
def expiry_entry (today uri : String) (ao : Record) (n : Note) : Option LogEntry :=
  if expiry_matches today n then
    match format_note n, ao.display_string with
    | Except.ok m, some t => some { uri := uri, title := t, restriction := m }
    | _, _ => none
  else none

/-- The ordered per-record change log of the expiry sweep: one entry per
unpublished note, in note order. -/
def expiry_log_of (today uri : String) (ao : Record) : List LogEntry :=
  ao.notes.filterMap (fun n => expiry_entry today uri ao n)

/-- A published restriction note whose embedded date is already past. -/
def c5_expired_note : Note :=
  { type := some "accessrestrict", publish := true, jsonmodel_type := "note_singlepart",
    content := [ { raw := "Restricted until 2020. <date normal=2020-01-01/>",
                   children := [ { tag := "date", attrs := [("normal", "2020-01-01")] } ] } ],
    subnotes := [] }

/-- A published restriction note whose embedded date is still to come. -/
def c5_future_note : Note :=
  { type := some "accessrestrict", publish := true, jsonmodel_type := "note_singlepart",
    content := [ { raw := "Restricted until 2030. <date normal=2030-01-01/>",
                   children := [ { tag := "date", attrs := [("normal", "2030-01-01")] } ] } ],
    subnotes := [] }

/-- The archival object of the C5 witness, one expired and one future
restriction. -/
def c5_record : Record :=
  { blankRecord with
    uri := "/ao/E",
    display_string := some "Box 9",
    notes := [c5_expired_note, c5_future_note] }

/-- The backend of the C5 witness. -/
def c5_backend : Backend :=
  { blankBackend with records := [("/ao/E", c5_record)] }

/-- The one log entry the C5 witness sweep produces. -/
def c5_entry : LogEntry :=
  { uri := "/ao/E", title := "Box 9",
    restriction := { raw := "Restricted until 2020. <date normal=2020-01-01/>",
                     children := [ { tag := "date", attrs := [("normal", "2020-01-01")] } ] } }

/-- Whether delete_single_resource_instances deletes this uri in this
backend: a digital-object uri with exactly one linked instance, or a
top-container uri with exactly one collection membership. -/
def deletableB (b : Backend) (u : String) : Bool :=
  if strContains u "digital_objects" then
    match lookupR u b.records with
    | some r =>
      match r.linked_instances with
      | some li => li.length == 1
      | none => false
    | none => false
  else if strContains u "top_containers" then
    match lookupR u b.records with
    | some r =>
      match r.collection with
      | some col => col.length == 1
      | none => false
    | none => false
  else false

/-- The archival object of the C9 witness: two references to one digital
object (a duplicate), one to another digital object, one to a top container. -/
def c9_ao : Record :=
  { blankRecord with
    uri := "/ao/5",
    instances :=
      [ { instance_type := "digital_object", digital_object_ref := some "/digital_objects/10",
          top_container_ref := none },
        { instance_type := "digital_object", digital_object_ref := some "/digital_objects/11",
          top_container_ref := none },
        { instance_type := "digital_object", digital_object_ref := some "/digital_objects/10",
          top_container_ref := none },
        { instance_type := "container", digital_object_ref := none,
          top_container_ref := some "/top_containers/20" } ] }

/-- The one-node resource tree of the C9 witness. -/
def c9_tree : TreeList :=
  TreeList.cons (TreeNode.node "/ao/5" false ["digital_object", "top_container"] TreeList.nil)
    TreeList.nil

/-- The C9 witness world: a sole-owner digital object, a shared digital
object, and a sole-owner top container. -/
def c9_world : World :=
  { backend := { blankBackend with
      records :=
        [ ("/ao/5", c9_ao),
          ("/digital_objects/10", { blankRecord with
             uri := "/digital_objects/10",
             linked_instances := some ["/ao/5"] }),
          ("/digital_objects/11", { blankRecord with
             uri := "/digital_objects/11",
             linked_instances := some ["/ao/5", "/ao/6"] }),
          ("/top_containers/20", { blankRecord with
             uri := "/top_containers/20",
             collection := some ["/resources/1"] }) ],
      trees := [(1, c9_tree)] },
    defaults := freshDefaults }

/-- The archival object of the C4 witness: one instance referencing the
source container, one referencing an unrelated container. -/
def c4_ao : Record :=
  { blankRecord with
    uri := "/ao/9",
    instances := [ { instance_type := "container", digital_object_ref := none,
                     top_container_ref := some "/top_containers/1" },
                   { instance_type := "container", digital_object_ref := none,
                     top_container_ref := some "/top_containers/7" } ] }

/-- The backend of the C4 witness: the referencing archival object, the
source and target containers, and the metadata answer for the source. -/
def c4_backend : Backend :=
  { blankBackend with
    records := [("/ao/9", c4_ao),
                ("/top_containers/1", { blankRecord with uri := "/top_containers/1" }),
                ("/top_containers/2", { blankRecord with uri := "/top_containers/2" })],
    container_metadata := [(1, ["/ao/9"])] }

/-- The empty-content published restriction note of the C10 witness. -/
def c10_note : Note :=
  { type := some "accessrestrict", publish := true,
    jsonmodel_type := "note_singlepart", content := [], subnotes := [] }

/-- The archival object of the C10 witness. -/
def c10_record : Record :=
  { blankRecord with uri := "/ao/X", notes := [c10_note] }

/-- The backend of the C10 witness. -/
def c10_backend : Backend :=
  { blankBackend with records := [("/ao/X", c10_record)] }

theorem extract_eq_append (cs : TreeList) (acc : List String) :
    extract_archival_object_uris_from_children cs acc = acc ++ flatList cs := by
  induction cs, acc using extract_archival_object_uris_from_children.induct with
  | case1 acc => rw [extract_archival_object_uris_from_children, flatList]; simp
  | case2 u hc its cs rest acc acc1 acc2 ihcs ihrest =>
    simp only [extract_archival_object_uris_from_children]
    rw [flatList]
    cases hc with
    | true =>
      simp only [if_true]
      have h2 : extract_archival_object_uris_from_children rest
          (extract_archival_object_uris_from_children cs (acc ++ [u])) =
          (extract_archival_object_uris_from_children cs (acc ++ [u])) ++ flatList rest := ihrest
      have h3 : extract_archival_object_uris_from_children cs (acc ++ [u]) =
          (acc ++ [u]) ++ flatList cs := ihcs
      rw [h2, h3]
      simp only [List.append_assoc, List.singleton_append, List.cons_append, List.nil_append]
    | false =>
      simp only [Bool.false_eq_true, if_false]
      have h2 : extract_archival_object_uris_from_children rest (acc ++ [u]) =
          (acc ++ [u]) ++ flatList rest := ihrest
      rw [h2]
      simp only [List.append_assoc, List.singleton_append, List.cons_append, List.nil_append]

theorem find_eq_append (cs : TreeList) (acc : List String) (itf : Option String) :
    find_children_with_instances cs acc itf = acc ++ findList itf cs := by
  induction cs, acc, itf using find_children_with_instances.induct with
  | case1 acc itf => rw [find_children_with_instances, findList]; simp
  | case2 u hc its cs rest acc itf acc1 acc2 ihcs ihrest =>
    have ha1 : acc1 =
        (if !its.isEmpty then
          if truthyOptStr itf && its.contains (itf.getD "") then acc ++ [u]
          else if !(truthyOptStr itf) then acc ++ [u]
          else acc
        else acc) := rfl
    have ha2 : acc2 = (if hc then find_children_with_instances cs acc1 itf else acc1) := rfl
    rw [ha1] at ha2 ihcs
    rw [ha2] at ihrest
    clear ha1 ha2
    simp only [find_children_with_instances]
    rw [findList]
    have hone : (if !its.isEmpty then
          if truthyOptStr itf && its.contains (itf.getD "") then acc ++ [u]
          else if !(truthyOptStr itf) then acc ++ [u]
          else acc
        else acc) =
        acc ++ (if !its.isEmpty &&
            (truthyOptStr itf && its.contains (itf.getD "") || !(truthyOptStr itf))
          then [u] else []) := by
      by_cases he : (!its.isEmpty) = true
      · by_cases hA : truthyOptStr itf = true ∧ itf.getD "" ∈ its
        · simp [he, hA]
        · by_cases ht : truthyOptStr itf = false
          · simp [he, hA, ht]
          · have ht2 : truthyOptStr itf = true := by
              cases h : truthyOptStr itf
              · exact absurd h ht
              · rfl
            have hm : itf.getD "" ∉ its := fun hmem => hA ⟨ht2, hmem⟩
            simp [he, ht, hm]
      · simp [he]
    rw [hone] at ihrest ihcs ⊢
    cases hc with
    | true =>
      simp only [if_true] at ihrest ⊢
      rw [ihrest, ihcs]
      simp
    | false =>
      simp only [Bool.false_eq_true, if_false] at ihrest ⊢
      rw [ihrest]
      simp

theorem format_dates_loop_eq (ds : List DateEntry) (incl bulk : List String) :
    format_dates_loop ds incl bulk =
      (incl ++ (ds.filter (fun d => d.date_type == "inclusive")).map
        (fun d => pythonStrip (effective_expression d)),
       bulk ++ (ds.filter (fun d => d.date_type == "bulk")).map
        (fun d => pythonStrip (effective_expression d))) := by
  induction ds generalizing incl bulk with
  | nil => simp [format_dates_loop]
  | cons d rest ih =>
    simp only [format_dates_loop, ih, List.filter_cons]
    by_cases hi : d.date_type = "inclusive"
    · have hb : ¬ d.date_type = "bulk" := by
        rw [hi]; intro hcontra; exact absurd hcontra (by decide)
      simp [hi, hb]
    · by_cases hb : d.date_type = "bulk"
      · simp [hi, hb]
      · simp [hi, hb]

/-- C3 counterexample: the source date formatter joins every inclusive
expression, empty ones included, so a record with one 1900 entry and one
entirely empty inclusive entry formats as 1900 followed by a dangling comma
and space, not as the join of only the non-empty expressions. -/
theorem c3_counterexample :
    format_dates c3_record = "1900, " ∧
    format_dates_claim c3_record = "1900" ∧
    format_dates c3_record ≠ format_dates_claim c3_record := by
  refine ⟨rfl, rfl, ?_⟩
  decide

/-- C3 (amended): for every record, format_dates computes each entry's
effective expression (expression verbatim if truthy; else begin-end when both
are present; else begin alone; else empty), and its output is the comma-join
of ALL trimmed inclusive expressions, empty ones included, with the bulk
parenthetical of the first bulk expression appended when at least one bulk
entry exists; entries of other date_type are ignored, and an absent or empty
dates list yields the empty string. -/
theorem c3_format_dates_amended (j : Record) : format_dates j = format_dates_amended j := by
  unfold format_dates format_dates_amended
  match h : j.dates with
  | none => rfl
  | some ds =>
    by_cases he : ds.isEmpty
    · simp [he]
    · simp only [he, if_false, Bool.false_eq_true, format_dates_loop_eq, List.nil_append]
      cases hb : (ds.filter (fun d => d.date_type == "bulk")).map
          (fun d => pythonStrip (effective_expression d)) with
      | nil => simp [hb]
      | cons b0 brest => simp [hb, String.append_assoc]

/-- C3 amended witness: the amended formatter equation evaluated at the
counterexample record. -/
theorem c3_format_dates_amended_witness :
    format_dates c3_record = format_dates_amended c3_record :=
  c3_format_dates_amended c3_record

/-- C1: FALSIFIED ON THE CODE.  Both module-level walkers default their
accumulator to a list object bound once at definition time; a top-level call
that passes no accumulator mutates and returns that shared object, so the
second of two successive top-level calls on the same one-node tree returns
the uri twice — the result is neither fresh nor a function of the call's
arguments alone. -/
theorem c1_shared_default_accumulator :
    (extract_uris_toplevel freshDefaults c1_tree).1 = ["/ao/1"] ∧
    (extract_uris_toplevel (extract_uris_toplevel freshDefaults c1_tree).2 c1_tree).1
      = ["/ao/1", "/ao/1"] ∧
    (extract_uris_toplevel (extract_uris_toplevel freshDefaults c1_tree).2 c1_tree).1 ≠
      (extract_uris_toplevel freshDefaults c1_tree).1 ∧
    (find_children_toplevel freshDefaults c1_tree none).1 = ["/ao/1"] ∧
    (find_children_toplevel (find_children_toplevel freshDefaults c1_tree none).2
        c1_tree none).1 = ["/ao/1", "/ao/1"] ∧
    (find_children_toplevel (find_children_toplevel freshDefaults c1_tree none).2
        c1_tree none).1 ≠
      (find_children_toplevel freshDefaults c1_tree none).1 := by
  refine ⟨rfl, rfl, by decide, rfl, rfl, by decide⟩

theorem c2_loop_diverges (fuel : Nat) :
    ∀ b : Backend, b.records = c2_backend.records →
    ∀ acc : List (Option String),
      build_hierarchy_loop fuel b c2_record_A acc = none ∧
      build_hierarchy_loop fuel b c2_record_B acc = none := by
  induction fuel with
  | zero =>
    intro b hb acc
    exact ⟨rfl, rfl⟩
  | succ fuel ih =>
    intro b hb acc
    have hgetB : aspace_get b "/ao/B" =
        ({ b with events := b.events ++ [Event.get "/ao/B"] }, Except.ok c2_record_B) := by
      rw [aspace_get, hb]
      rfl
    have hgetA : aspace_get b "/ao/A" =
        ({ b with events := b.events ++ [Event.get "/ao/A"] }, Except.ok c2_record_A) := by
      rw [aspace_get, hb]
      rfl
    constructor
    · rw [build_hierarchy_loop]
      simp only [c2_record_A, hgetB]
      rw [show make_display_string { b with events := b.events ++ [Event.get "/ao/B"] }
            c2_record_B false =
          ({ b with events := b.events ++ [Event.get "/ao/B"] },
            Except.ok (some "Record B")) from rfl]
      exact (ih _ (by simp [hb]) _).2
    · rw [build_hierarchy_loop]
      simp only [c2_record_B, hgetA]
      rw [show make_display_string { b with events := b.events ++ [Event.get "/ao/A"] }
            c2_record_A false =
          ({ b with events := b.events ++ [Event.get "/ao/A"] },
            Except.ok (some "Record A")) from rfl]
      exact (ih _ (by simp [hb]) _).1

/-- C2: FALSIFIED ON THE CODE.  build_hierarchy keeps no visited-uri set and
raises no cycle condition: on a backend whose parent references form a cycle
its while loop re-fetches the two ancestors forever, so the fuel-bounded
embedding exhausts every fuel instead of terminating with a distinct
CycleDetected failure. -/
theorem c2_build_hierarchy_no_cycle_guard (fuel : Nat) :
    build_hierarchy c2_backend fuel c2_record_A ">" = none := by
  rw [build_hierarchy]
  rw [(c2_loop_diverges fuel c2_backend rfl []).1]

/-- C2 witness: the cyclic walk exhausts the concrete fuel value five. -/
theorem c2_build_hierarchy_no_cycle_guard_witness :
    build_hierarchy c2_backend 5 c2_record_A ">" = none :=
  c2_build_hierarchy_no_cycle_guard 5

/-- C6: make_display_string follows the claimed priority rules.  With truthy
title and dates it returns the sanitized title, a comma-space, and the
formatted dates; with title only, the sanitized title; with dates only and
add_parent_title unset, the formatted dates; with dates only and
add_parent_title set, it fetches the parent once and returns the parent's
stored display_string field sanitized, a comma-space, and this record's
formatted dates. -/
theorem c6_make_display_string (b : Backend) (j : Record) :
    (∀ apt t, truthyOptStr j.title = true → truthyDates j.dates = true →
      j.title = some t →
      make_display_string b j apt =
        (b, Except.ok (some (sanitize_title t ++ ", " ++ format_dates j)))) ∧
    (∀ apt t, truthyOptStr j.title = true → truthyDates j.dates = false →
      j.title = some t →
      make_display_string b j apt = (b, Except.ok (some (sanitize_title t)))) ∧
    (truthyDates j.dates = true → truthyOptStr j.title = false →
      make_display_string b j false = (b, Except.ok (some (format_dates j)))) ∧
    (∀ pref b1 pj ds, truthyDates j.dates = true → truthyOptStr j.title = false →
      j.parent = some pref → aspace_get b pref = (b1, Except.ok pj) →
      pj.display_string = some ds →
      make_display_string b j true =
        (b1, Except.ok (some (sanitize_title ds ++ ", " ++ format_dates j)))) := by
  refine ⟨?_, ?_, ?_, ?_⟩
  · intro apt t ht hd hts
    rw [make_display_string]
    simp only [ht, hd]
    simp [hts]
  · intro apt t ht hd hts
    rw [make_display_string]
    simp only [ht, hd]
    simp [hts]
  · intro hd ht
    rw [make_display_string]
    simp only [ht, hd]
    simp
  · intro pref b1 pj ds hd ht hp hget hds
    rw [make_display_string]
    simp only [ht, hd]
    simp [hp, hget, hds]

/-- C6 witness: the priority rules evaluated on concrete records — a titled
and dated record, and a dates-only record resolved through its parent's
stored display string. -/
theorem c6_make_display_string_witness :
    make_display_string c6_backend c6_titled false =
      (c6_backend, Except.ok (some "Letters, 1900")) ∧
    make_display_string c6_backend c6_child true =
      ({ c6_backend with events := [Event.get "/ao/P"] },
        Except.ok (some "Parent Papers, 1900")) := by
  constructor
  · exact (c6_make_display_string c6_backend c6_titled).1 false " <em>Letters</em> "
      rfl rfl rfl
  · exact (c6_make_display_string c6_backend c6_child).2.2.2 "/ao/P"
      { c6_backend with events := [Event.get "/ao/P"] } c6_parent
      " <span>Parent</span> Papers " rfl rfl rfl rfl rfl

theorem lookupR_updateR_self (u : String) (r : Record) (l : List (String × Record)) :
    lookupR u (updateR u r l) = some r := by
  induction l with
  | nil => simp [updateR, lookupR]
  | cons p rest ih =>
    obtain ⟨k, v⟩ := p
    by_cases h : k = u
    · simp [updateR, lookupR, h]
    · simp [updateR, lookupR, h, ih]

theorem lookupR_updateR_other (u v : String) (r : Record) (l : List (String × Record))
    (h : v ≠ u) : lookupR v (updateR u r l) = lookupR v l := by
  induction l with
  | nil => simp [updateR, lookupR, Ne.symm h]
  | cons p rest ih =>
    obtain ⟨k, v0⟩ := p
    by_cases hk : k = u
    · subst hk
      simp [updateR, lookupR, Ne.symm h, ih]
    · simp only [updateR, hk, if_false]
      by_cases hv : k = v
      · simp [lookupR, hv]
      · simp [lookupR, hv, ih]

theorem lookupR_removeR_self (u : String) (l : List (String × Record)) :
    lookupR u (removeR u l) = none := by
  induction l with
  | nil => simp [removeR, lookupR]
  | cons p rest ih =>
    obtain ⟨k, v⟩ := p
    by_cases h : k = u
    · simp [removeR, h, ih]
    · simp [removeR, lookupR, h, ih]

theorem lookupR_removeR_other (u v : String) (l : List (String × Record)) (h : v ≠ u) :
    lookupR v (removeR u l) = lookupR v l := by
  induction l with
  | nil => simp [removeR, lookupR]
  | cons p rest ih =>
    obtain ⟨k, v0⟩ := p
    by_cases hk : k = u
    · subst hk
      simp [removeR, lookupR, Ne.symm h, ih]
    · simp only [removeR, hk, if_false]
      by_cases hv : k = v
      · simp [lookupR, hv]
      · simp [lookupR, hv, ih]

theorem text_note_ok {target uri : String} {ao : Record} {n n1 : Note}
    {e : Option LogEntry}
    (h : text_note target uri ao n = Except.ok (n1, e)) :
    (text_matches target n = false ∧ n1 = n ∧ e = none) ∨
    (text_matches target n = true ∧
      ∃ m t, format_note n = Except.ok m ∧ ao.display_string = some t ∧
        n1 = { n with publish := false } ∧
        e = some { uri := uri, title := t, restriction := m }) := by
  rw [text_note] at h
  cases hty : n.type with
  | none =>
    rw [hty] at h
    exact absurd h (by simp)
  | some t0 =>
    rw [hty] at h
    dsimp only at h
    by_cases hcond : t0 = "accessrestrict" ∧ n.publish = true
    · rw [if_pos hcond] at h
      cases hfm : format_note n with
      | error e0 =>
        rw [hfm] at h
        exact absurd h (by simp)
      | ok m =>
        rw [hfm] at h
        dsimp only at h
        by_cases hraw : m.raw = target
        · rw [if_pos hraw] at h
          cases hds : ao.display_string with
          | none =>
            rw [hds] at h
            exact absurd h (by simp)
          | some t1 =>
            rw [hds] at h
            dsimp only at h
            simp only [Except.ok.injEq, Prod.mk.injEq] at h
            right
            refine ⟨?_, m, t1, rfl, rfl, h.1.symm, h.2.symm⟩
            simp [text_matches, hty, hcond.1, hcond.2, hfm, hraw]
        · rw [if_neg hraw] at h
          simp only [Except.ok.injEq, Prod.mk.injEq] at h
          left
          refine ⟨?_, h.1.symm, h.2.symm⟩
          simp [text_matches, hty, hcond.1, hcond.2, hfm, hraw]
    · rw [if_neg hcond] at h
      simp only [Except.ok.injEq, Prod.mk.injEq] at h
      left
      refine ⟨?_, h.1.symm, h.2.symm⟩
      simp only [text_matches, hty]
      by_cases ht0 : t0 = "accessrestrict"
      · have hp : n.publish = false := by
          cases hp0 : n.publish
          · rfl
          · exact absurd ⟨ht0, hp0⟩ hcond
        simp [hp]
      · simp [ht0]

theorem text_note_result_clean {target uri : String} {ao : Record} {n n1 : Note}
    {e : Option LogEntry}
    (h : text_note target uri ao n = Except.ok (n1, e)) :
    text_matches target n1 = false := by
  rcases text_note_ok h with ⟨hm, hn, _⟩ | ⟨_, m, t, _, _, hn, _⟩
  · rw [hn]; exact hm
  · rw [hn]
    simp [text_matches]

theorem text_note_unpub {target uri : String} {ao : Record} {n n1 : Note}
    {e : Option LogEntry}
    (h : text_note target uri ao n = Except.ok (n1, e)) :
    n1 = n ∨ n1 = { n with publish := false } := by
  rcases text_note_ok h with ⟨_, hn, _⟩ | ⟨_, m, t, _, _, hn, _⟩
  · exact Or.inl hn
  · exact Or.inr hn

theorem text_note_of_clean {target uri : String} {ao : Record} {n n1 : Note}
    {e : Option LogEntry} (hc : text_matches target n = false)
    (h : text_note target uri ao n = Except.ok (n1, e)) : n1 = n ∧ e = none := by
  rcases text_note_ok h with ⟨_, hn, he⟩ | ⟨hm, _⟩
  · exact ⟨hn, he⟩
  · rw [hm] at hc
    exact absurd hc (by simp)

theorem text_notes_ok {target uri : String} {ao : Record} {ns ns1 : List Note}
    {ch : Bool} {log : List LogEntry}
    (h : text_notes target uri ao ns = Except.ok (ns1, ch, log)) :
    List.Forall₂ (fun n1 n => n1 = n ∨ n1 = { n with publish := false }) ns1 ns ∧
    (∀ n1 ∈ ns1, text_matches target n1 = false) ∧
    (ch = false → ns1 = ns ∧ log = []) := by
  induction ns generalizing ns1 ch log with
  | nil =>
    rw [text_notes] at h
    simp only [Except.ok.injEq, Prod.mk.injEq] at h
    obtain ⟨h1, h2, h3⟩ := h
    subst h1 h2 h3
    exact ⟨List.Forall₂.nil, by simp, by simp⟩
  | cons n rest ih =>
    rw [text_notes] at h
    cases hn : text_note target uri ao n with
    | error e0 =>
      rw [hn] at h
      exact absurd h (by simp)
    | ok p =>
      obtain ⟨n1, entry⟩ := p
      rw [hn] at h
      dsimp only at h
      cases hrest : text_notes target uri ao rest with
      | error e0 =>
        rw [hrest] at h
        exact absurd h (by simp)
      | ok q =>
        obtain ⟨rest1, ch0, log0⟩ := q
        rw [hrest] at h
        dsimp only at h
        simp only [Except.ok.injEq, Prod.mk.injEq] at h
        obtain ⟨hns1, hch, hlog⟩ := h
        obtain ⟨ihf, ihc, ihz⟩ := ih hrest
        subst hns1 hch hlog
        refine ⟨List.Forall₂.cons (text_note_unpub hn) ihf, ?_, ?_⟩
        · intro x hx
          rcases List.mem_cons.mp hx with hx | hx
          · subst hx
            exact text_note_result_clean hn
          · exact ihc x hx
        · intro hz
          simp only [Bool.or_eq_false_iff] at hz
          obtain ⟨hz1, hz2⟩ := hz
          obtain ⟨hr1, hr2⟩ := ihz hz2
          have he : entry = none := by
            cases entry
            · rfl
            · simp at hz1
          subst he hr1 hr2
          rcases text_note_ok hn with ⟨_, hnn, _⟩ | ⟨_, m, t, _, _, _, hee⟩
          · subst hnn
            exact ⟨rfl, rfl⟩
          · simp at hee

theorem text_notes_clean {target uri : String} {ao : Record} {ns ns1 : List Note}
    {ch : Bool} {log : List LogEntry}
    (hc : ∀ n ∈ ns, text_matches target n = false)
    (h : text_notes target uri ao ns = Except.ok (ns1, ch, log)) :
    ns1 = ns ∧ ch = false ∧ log = [] := by
  induction ns generalizing ns1 ch log with
  | nil =>
    rw [text_notes] at h
    simp only [Except.ok.injEq, Prod.mk.injEq] at h
    exact ⟨h.1.symm, h.2.1.symm, h.2.2.symm⟩
  | cons n rest ih =>
    rw [text_notes] at h
    cases hn : text_note target uri ao n with
    | error e0 =>
      rw [hn] at h
      exact absurd h (by simp)
    | ok p =>
      obtain ⟨n1, entry⟩ := p
      rw [hn] at h
      dsimp only at h
      cases hrest : text_notes target uri ao rest with
      | error e0 =>
        rw [hrest] at h
        exact absurd h (by simp)
      | ok q =>
        obtain ⟨rest1, ch0, log0⟩ := q
        rw [hrest] at h
        dsimp only at h
        simp only [Except.ok.injEq, Prod.mk.injEq] at h
        obtain ⟨hns1, hch, hlog⟩ := h
        obtain ⟨hn1, hentry⟩ := text_note_of_clean (hc n (by simp)) hn
        obtain ⟨hr1, hr2, hr3⟩ := ih (fun x hx => hc x (by simp [hx])) hrest
        subst hns1 hch hlog hn1 hentry hr1 hr2 hr3
        simp

theorem text_record_ok {b b1 : Backend} {target uri : String} {log : List LogEntry}
    (h : text_record b target uri = (b1, Except.ok log)) :
    ∃ ao ns1 ch,
      lookupR uri b.records = some ao ∧
      text_notes target uri ao ao.notes = Except.ok (ns1, ch, log) ∧
      b1.trees = b.trees ∧ b1.container_metadata = b.container_metadata ∧
      (ch = true →
        b1.records = updateR uri { ao with notes := ns1 } b.records ∧
        b1.events = b.events ++ [Event.get uri, Event.post uri]) ∧
      (ch = false → b1.records = b.records ∧ b1.events = b.events ++ [Event.get uri]) := by
  rw [text_record, aspace_get] at h
  cases hget : lookupR uri b.records with
  | none =>
    rw [hget] at h
    exact absurd h (by simp)
  | some ao =>
    rw [hget] at h
    dsimp only at h
    cases hns : text_notes target uri ao ao.notes with
    | error e0 =>
      rw [hns] at h
      exact absurd h (by simp)
    | ok q =>
      obtain ⟨ns1, ch, log0⟩ := q
      rw [hns] at h
      dsimp only at h
      simp only [Prod.mk.injEq, Except.ok.injEq] at h
      obtain ⟨hb1, hlog⟩ := h
      subst hlog
      refine ⟨ao, ns1, ch, rfl, hns, ?_, ?_, ?_, ?_⟩
      · cases ch with
        | true => rw [← hb1]; simp [session_post]
        | false => rw [← hb1]; simp
      · cases ch with
        | true => rw [← hb1]; simp [session_post]
        | false => rw [← hb1]; simp
      · intro hch
        subst hch
        rw [← hb1]
        simp [session_post]
      · intro hch
        subst hch
        rw [← hb1]
        simp

theorem text_record_clean_after {b b1 : Backend} {target uri : String}
    {log : List LogEntry} (h : text_record b target uri = (b1, Except.ok log)) :
    ∃ r1, lookupR uri b1.records = some r1 ∧ recordClean target r1 := by
  obtain ⟨ao, ns1, ch, hget, hns, _, _, htrue, hfalse⟩ := text_record_ok h
  obtain ⟨_, hclean, hzero⟩ := text_notes_ok hns
  cases ch with
  | true =>
    obtain ⟨hrec, _⟩ := htrue rfl
    refine ⟨{ ao with notes := ns1 }, ?_, ?_⟩
    · rw [hrec, lookupR_updateR_self]
    · intro n hn
      exact hclean n hn
  | false =>
    obtain ⟨hrec, _⟩ := hfalse rfl
    obtain ⟨hsame, _⟩ := hzero rfl
    refine ⟨ao, by rw [hrec]; exact hget, ?_⟩
    intro n hn
    exact hclean n (by rw [hsame]; exact hn)

theorem text_record_other {b b1 : Backend} {target uri : String}
    {log : List LogEntry} (h : text_record b target uri = (b1, Except.ok log))
    (v : String) (hv : v ≠ uri) : lookupR v b1.records = lookupR v b.records := by
  obtain ⟨ao, ns1, ch, _, _, _, _, htrue, hfalse⟩ := text_record_ok h
  cases ch with
  | true =>
    obtain ⟨hrec, _⟩ := htrue rfl
    rw [hrec, lookupR_updateR_other _ _ _ _ hv]
  | false =>
    obtain ⟨hrec, _⟩ := hfalse rfl
    rw [hrec]

theorem text_record_second {b b1 : Backend} {target uri : String}
    {log : List LogEntry}
    (hclean : ∀ r, lookupR uri b.records = some r → recordClean target r)
    (h : text_record b target uri = (b1, Except.ok log)) :
    log = [] ∧ b1.records = b.records := by
  obtain ⟨ao, ns1, ch, hget, hns, _, _, htrue, hfalse⟩ := text_record_ok h
  obtain ⟨_, hch, hlog⟩ := text_notes_clean (hclean ao hget) hns
  subst hch
  obtain ⟨hrec, _⟩ := hfalse rfl
  exact ⟨hlog, hrec⟩

theorem backendUnpubOf_refl (b : Backend) : backendUnpubOf b b :=
  fun _ => Or.inl rfl

theorem recordUnpubOf_refl (r : Record) : recordUnpubOf r r := by
  constructor
  · rfl
  · exact List.forall₂_same.mpr (fun n _ => Or.inl rfl)

theorem noteUnpub_trans {n2 n1 n : Note}
    (h2 : n2 = n1 ∨ n2 = { n1 with publish := false })
    (h1 : n1 = n ∨ n1 = { n with publish := false }) :
    n2 = n ∨ n2 = { n with publish := false } := by
  rcases h1 with h1 | h1 <;> rcases h2 with h2 | h2 <;> subst h1 <;> simp [h2]

theorem forall₂_unpub_trans {l2 l1 l : List Note}
    (h2 : List.Forall₂ (fun n1 n => n1 = n ∨ n1 = { n with publish := false }) l2 l1)
    (h1 : List.Forall₂ (fun n1 n => n1 = n ∨ n1 = { n with publish := false }) l1 l) :
    List.Forall₂ (fun n1 n => n1 = n ∨ n1 = { n with publish := false }) l2 l := by
  induction h1 generalizing l2 with
  | nil =>
    cases h2
    exact List.Forall₂.nil
  | cons hx hrest ih =>
    cases h2 with
    | cons hy hrest2 =>
      exact List.Forall₂.cons (noteUnpub_trans hy hx) (ih hrest2)

theorem recordUnpubOf_trans {r2 r1 r : Record}
    (h2 : recordUnpubOf r2 r1) (h1 : recordUnpubOf r1 r) : recordUnpubOf r2 r := by
  obtain ⟨he2, hf2⟩ := h2
  obtain ⟨he1, hf1⟩ := h1
  constructor
  · rw [he2, he1]
  · exact forall₂_unpub_trans hf2 hf1

theorem backendUnpubOf_trans {b2 b1 b : Backend}
    (h2 : backendUnpubOf b2 b1) (h1 : backendUnpubOf b1 b) : backendUnpubOf b2 b := by
  intro u
  rcases h2 u with h2u | ⟨r2, r1, hr2, hr1, hrel2⟩
  · rcases h1 u with h1u | ⟨r1, r0, hr1, hr0, hrel1⟩
    · exact Or.inl (h2u.trans h1u)
    · exact Or.inr ⟨r1, r0, h2u.trans hr1, hr0, hrel1⟩
  · rcases h1 u with h1u | ⟨r1x, r0, hr1x, hr0, hrel1⟩
    · exact Or.inr ⟨r2, r1, hr2, by rw [← h1u]; exact hr1, hrel2⟩
    · have hx : r1x = r1 := by
        rw [hr1] at hr1x
        exact (Option.some.inj hr1x).symm
      subst hx
      exact Or.inr ⟨r2, r0, hr2, hr0, recordUnpubOf_trans hrel2 hrel1⟩

theorem text_record_unpub {b b1 : Backend} {target uri : String}
    {log : List LogEntry} (h : text_record b target uri = (b1, Except.ok log)) :
    backendUnpubOf b1 b := by
  obtain ⟨ao, ns1, ch, hget, hns, _, _, htrue, hfalse⟩ := text_record_ok h
  obtain ⟨hforall, _, _⟩ := text_notes_ok hns
  cases ch with
  | true =>
    obtain ⟨hrec, _⟩ := htrue rfl
    intro v
    by_cases hv : v = uri
    · subst hv
      right
      refine ⟨{ ao with notes := ns1 }, ao, ?_, hget, ?_, ?_⟩
      · rw [hrec, lookupR_updateR_self]
      · rfl
      · exact hforall
    · left
      rw [hrec, lookupR_updateR_other _ _ _ _ hv]
  | false =>
    obtain ⟨hrec, _⟩ := hfalse rfl
    intro v
    left
    rw [hrec]

theorem text_sweep_ok {target : String} {uris : List String} :
    ∀ {b b1 : Backend} {log : List LogEntry},
    text_sweep b target uris = (b1, Except.ok log) →
    (∀ u ∈ uris, ∃ r1, lookupR u b1.records = some r1 ∧ recordClean target r1) ∧
    (∀ v, v ∉ uris → lookupR v b1.records = lookupR v b.records) ∧
    b1.trees = b.trees ∧ backendUnpubOf b1 b := by
  induction uris with
  | nil =>
    intro b b1 log h
    rw [text_sweep] at h
    simp only [Prod.mk.injEq, Except.ok.injEq] at h
    obtain ⟨hb, _⟩ := h
    subst hb
    exact ⟨by simp, fun v _ => rfl, rfl, backendUnpubOf_refl b⟩
  | cons u rest ih =>
    intro b b1 log h
    rw [text_sweep] at h
    cases hrec : text_record b target u with
    | mk bm res =>
      rw [hrec] at h
      cases res with
      | error e0 =>
        dsimp only at h
        exact absurd h (by simp)
      | ok log1 =>
        dsimp only at h
        cases hrest : text_sweep bm target rest with
        | mk b2 res2 =>
          rw [hrest] at h
          cases res2 with
          | error e0 =>
            dsimp only at h
            exact absurd h (by simp)
          | ok log2 =>
            dsimp only at h
            simp only [Prod.mk.injEq, Except.ok.injEq] at h
            obtain ⟨hb2, _⟩ := h
            subst hb2
            obtain ⟨ihq, ihother, ihtrees, ihunpub⟩ := ih hrest
            obtain ⟨_, _, _, _, _, hmtrees, _, _, _⟩ := text_record_ok hrec
            refine ⟨?_, ?_, ?_, ?_⟩
            · intro x hx
              rcases List.mem_cons.mp hx with hx | hx
              · subst hx
                by_cases hxr : x ∈ rest
                · exact ihq x hxr
                · obtain ⟨r1, hr1, hc1⟩ := text_record_clean_after hrec
                  exact ⟨r1, by rw [ihother x hxr]; exact hr1, hc1⟩
              · exact ihq x hx
            · intro v hv
              have hv1 : v ≠ u := fun hh => hv (by simp [hh])
              have hv2 : v ∉ rest := fun hh => hv (by simp [hh])
              rw [ihother v hv2, text_record_other hrec v hv1]
            · rw [ihtrees]
              exact hmtrees
            · exact backendUnpubOf_trans ihunpub (text_record_unpub hrec)

theorem text_sweep_second {target : String} {uris : List String} :
    ∀ {b b1 : Backend} {log : List LogEntry},
    (∀ u ∈ uris, ∀ r, lookupR u b.records = some r → recordClean target r) →
    text_sweep b target uris = (b1, Except.ok log) →
    log = [] ∧ b1.records = b.records := by
  induction uris with
  | nil =>
    intro b b1 log _ h
    rw [text_sweep] at h
    simp only [Prod.mk.injEq, Except.ok.injEq] at h
    exact ⟨h.2.symm, by rw [← h.1]⟩
  | cons u rest ih =>
    intro b b1 log hclean h
    rw [text_sweep] at h
    cases hrec : text_record b target u with
    | mk bm res =>
      rw [hrec] at h
      cases res with
      | error e0 =>
        dsimp only at h
        exact absurd h (by simp)
      | ok log1 =>
        dsimp only at h
        cases hrest : text_sweep bm target rest with
        | mk b2 res2 =>
          rw [hrest] at h
          cases res2 with
          | error e0 =>
            dsimp only at h
            exact absurd h (by simp)
          | ok log2 =>
            dsimp only at h
            simp only [Prod.mk.injEq, Except.ok.injEq] at h
            obtain ⟨hb2, hlog⟩ := h
            subst hb2
            obtain ⟨hlog1, hm⟩ := text_record_second (hclean u (by simp)) hrec
            obtain ⟨hlog2, hrecs⟩ := ih (fun x hx r hr => hclean x (by simp [hx]) r
              (by rw [← hm]; exact hr)) hrest
            subst hlog1 hlog2
            exact ⟨by rw [← hlog]; rfl, by rw [hrecs, hm]⟩

theorem get_uris_ok {w w1 : World} {rn : Nat} {uris : List String}
    (h : get_resource_archival_object_uris w rn = (w1, Except.ok uris)) :
    ∃ children,
      lookupN rn w.backend.trees = some children ∧
      uris = w.defaults.extract_default ++ flatList children ∧
      w1.backend = { w.backend with
        events := w.backend.events ++ [Event.get (tree_uri rn)] } ∧
      w1.defaults = { w.defaults with extract_default := uris } := by
  rw [get_resource_archival_object_uris, get_resource_tree] at h
  cases ht : lookupN rn w.backend.trees with
  | none =>
    rw [ht] at h
    exact absurd h (by simp)
  | some children =>
    rw [ht] at h
    dsimp only [extract_uris_toplevel] at h
    simp only [Prod.mk.injEq, Except.ok.injEq] at h
    obtain ⟨hw1, huris⟩ := h
    refine ⟨children, rfl, ?_, ?_, ?_⟩
    · rw [← huris, extract_eq_append]
    · rw [← hw1]
    · rw [← hw1, ← huris, extract_eq_append]

/-- C7: sweeping twice finds nothing the second time, and the publish flag
only falls.  If a text-match sweep run from some world succeeds with a change
log, and a second run on the same resource and target succeeds from the world
the first run left, then the second run's log is empty, and each run relates
its final backend to its initial one by only unpublishing notes (never
republishing). -/
theorem c7_text_sweep_idempotent {w w1 w2 : World} {rn : Nat} {rt : Option String}
    {log1 log2 : List LogEntry}
    (ht : truthyOptStr rt = true)
    (h1 : unpublish_restrictions_by_text w rn rt = (w1, Except.ok (TextSweepOut.log log1)))
    (h2 : unpublish_restrictions_by_text w1 rn rt = (w2, Except.ok (TextSweepOut.log log2))) :
    log2 = [] ∧ backendUnpubOf w1.backend w.backend ∧
      backendUnpubOf w2.backend w1.backend := by
  rw [unpublish_restrictions_by_text] at h1 h2
  rw [ht] at h1 h2
  simp only [Bool.true_eq_false, if_false] at h1 h2
  cases hg1 : get_resource_archival_object_uris w rn with
  | mk wA res1 =>
    rw [hg1] at h1
    cases res1 with
    | error e0 => dsimp only at h1; exact absurd h1 (by simp)
    | ok uris1 =>
      dsimp only at h1
      cases hs1 : text_sweep wA.backend (rt.getD "") uris1 with
      | mk bB res2 =>
        rw [hs1] at h1
        cases res2 with
        | error e0 => dsimp only at h1; exact absurd h1 (by simp)
        | ok logA =>
          dsimp only at h1
          simp only [Prod.mk.injEq, Except.ok.injEq, TextSweepOut.log.injEq] at h1
          obtain ⟨hw1, hlogA⟩ := h1
          cases hg2 : get_resource_archival_object_uris w1 rn with
          | mk wC res3 =>
            rw [hg2] at h2
            cases res3 with
            | error e0 => dsimp only at h2; exact absurd h2 (by simp)
            | ok uris2 =>
              dsimp only at h2
              cases hs2 : text_sweep wC.backend (rt.getD "") uris2 with
              | mk bD res4 =>
                rw [hs2] at h2
                cases res4 with
                | error e0 => dsimp only at h2; exact absurd h2 (by simp)
                | ok logB =>
                  dsimp only at h2
                  simp only [Prod.mk.injEq, Except.ok.injEq, TextSweepOut.log.injEq] at h2
                  obtain ⟨hw2, hlogB⟩ := h2
                  obtain ⟨ch1, htree1, huris1, hwA_b, hwA_d⟩ := get_uris_ok hg1
                  obtain ⟨ch2, htree2, huris2, hwC_b, hwC_d⟩ := get_uris_ok hg2
                  obtain ⟨hq1, hother1, htrees1, hunpub1⟩ := text_sweep_ok hs1
                  obtain ⟨hq2, hother2, htrees2, hunpub2⟩ := text_sweep_ok hs2
                  have hw1b : w1.backend = bB := by rw [← hw1]
                  have hw1d : w1.defaults = wA.defaults := by rw [← hw1]
                  have hw2b : w2.backend = bD := by rw [← hw2]
                  have hch : ch2 = ch1 := by
                    have htr : w1.backend.trees = w.backend.trees := by
                      rw [hw1b, htrees1, hwA_b]
                    rw [htr] at htree2
                    rw [htree1] at htree2
                    exact (Option.some.inj htree2).symm
                  subst hch
                  have hd1 : w1.defaults.extract_default = uris1 := by
                    rw [hw1d, hwA_d]
                  have hsub : ∀ u ∈ uris2, u ∈ uris1 := by
                    intro u hu
                    rw [huris2, hd1] at hu
                    rcases List.mem_append.mp hu with hu | hu
                    · exact hu
                    · rw [huris1]
                      exact List.mem_append.mpr (Or.inr hu)
                  have hclean2 : ∀ u ∈ uris2, ∀ r,
                      lookupR u wC.backend.records = some r → recordClean (rt.getD "") r := by
                    intro u hu r hr
                    obtain ⟨r1, hr1, hc1⟩ := hq1 u (hsub u hu)
                    have : lookupR u wC.backend.records = lookupR u bB.records := by
                      rw [hwC_b, hw1b]
                    rw [this, hr1] at hr
                    rw [← Option.some.inj hr]
                    exact hc1
                  obtain ⟨hlog2, _⟩ := text_sweep_second hclean2 hs2
                  refine ⟨by rw [← hlogB]; exact hlog2, ?_, ?_⟩
                  · rw [hw1b]
                    have : backendUnpubOf wA.backend w.backend := by
                      rw [hwA_b]
                      exact fun u => Or.inl rfl
                    exact backendUnpubOf_trans hunpub1 this
                  · rw [hw2b]
                    have : backendUnpubOf wC.backend w1.backend := by
                      rw [hwC_b]
                      exact fun u => Or.inl rfl
                    exact backendUnpubOf_trans hunpub2 this

/-- C7 witness: on the concrete world the first sweep unpublishes the one
matching note, the second sweep logs nothing, and both runs only unpublish. -/
theorem c7_text_sweep_idempotent_witness :
    backendUnpubOf
      (unpublish_restrictions_by_text c7_world 1 (some "Closed.")).1.backend
      c7_world.backend ∧
    backendUnpubOf
      (unpublish_restrictions_by_text
        (unpublish_restrictions_by_text c7_world 1 (some "Closed.")).1 1
        (some "Closed.")).1.backend
      (unpublish_restrictions_by_text c7_world 1 (some "Closed.")).1.backend := by
  have h := @c7_text_sweep_idempotent c7_world
    (unpublish_restrictions_by_text c7_world 1 (some "Closed.")).1
    (unpublish_restrictions_by_text
      (unpublish_restrictions_by_text c7_world 1 (some "Closed.")).1 1
      (some "Closed.")).1
    1 (some "Closed.")
    [ { uri := "/ao/1", title := "Folder 1",
        restriction := { raw := "Closed.", children := [] } } ]
    [] rfl (by rfl) (by rfl)
  exact ⟨h.2.1, h.2.2⟩

/-- C8: a falsy restriction text short-circuits the text-match sweep — the
whole world (records, trees and the request log alike) is returned untouched
together with the report string, so nothing was fetched or written — and when
a text is supplied, a processed note changes only if it was published, of
type accessrestrict, and its formatted text equals the supplied string
exactly. -/
theorem c8_text_sweep_guard :
    (∀ (w : World) (rn : Nat) (rt : Option String), truthyOptStr rt = false →
      unpublish_restrictions_by_text w rn rt =
        (w, Except.ok (TextSweepOut.message "No restriction text provided"))) ∧
    (∀ (target uri : String) (ao : Record) (n n1 : Note) (e : Option LogEntry),
      text_note target uri ao n = Except.ok (n1, e) → n1 ≠ n →
      n.publish = true ∧ n.type = some "accessrestrict" ∧
        ∃ m, format_note n = Except.ok m ∧ m.raw = target ∧
          n1 = { n with publish := false }) := by
  constructor
  · intro w rn rt hrt
    rw [unpublish_restrictions_by_text, hrt]
    simp
  · intro target uri ao n n1 e h hne
    rcases text_note_ok h with ⟨_, hn, _⟩ | ⟨hm, m, t, hfm, _, hn, _⟩
    · exact absurd hn hne
    · simp only [text_matches, Bool.and_eq_true, beq_iff_eq] at hm
      refine ⟨hm.1.2, hm.1.1, m, hfm, ?_, hn⟩
      rw [hfm] at hm
      have := hm.2
      simp only [beq_iff_eq] at this
      exact this

theorem expiry_note_ok {today uri : String} {ao : Record} {n n1 : Note}
    {e : Option LogEntry}
    (h : expiry_note today uri ao n = Except.ok (n1, e)) :
    n1 = (if expiry_matches today n then { n with publish := false } else n) ∧
    e = expiry_entry today uri ao n := by
  rw [expiry_note] at h
  cases hty : n.type with
  | none =>
    rw [hty] at h
    exact absurd h (by simp)
  | some t0 =>
    rw [hty] at h
    dsimp only at h
    by_cases hcond : t0 = "accessrestrict" ∧ n.publish = true
    · rw [if_pos hcond] at h
      cases hfm : format_note n with
      | error e0 =>
        rw [hfm] at h
        exact absurd h (by simp)
      | ok m =>
        rw [hfm] at h
        dsimp only at h
        cases hde : date_elems m with
        | nil =>
          rw [hde] at h
          dsimp only at h
          simp only [Except.ok.injEq, Prod.mk.injEq] at h
          have hm : expiry_matches today n = false := by
            simp [expiry_matches, hty, hcond.1, hcond.2, hfm, hde]
          rw [hm]
          simp only [if_false, Bool.false_eq_true]
          exact ⟨h.1.symm, by rw [← h.2, expiry_entry, hm]; simp⟩
        | cons d drest =>
          rw [hde] at h
          dsimp only at h
          cases hlk : d.attrs.lookup "normal" with
          | none =>
            rw [hlk] at h
            exact absurd h (by simp)
          | some a =>
            rw [hlk] at h
            dsimp only at h
            by_cases hlt : pyStrLt a today = true
            · rw [if_pos hlt] at h
              cases hds : ao.display_string with
              | none =>
                rw [hds] at h
                exact absurd h (by simp)
              | some t1 =>
                rw [hds] at h
                dsimp only at h
                simp only [Except.ok.injEq, Prod.mk.injEq] at h
                have hm : expiry_matches today n = true := by
                  simp [expiry_matches, hty, hcond.1, hcond.2, hfm, hde, hlk, hlt]
                rw [hm]
                simp only [if_true]
                refine ⟨h.1.symm, ?_⟩
                rw [← h.2, expiry_entry, hm]
                simp [hfm, hds]
            · rw [if_neg hlt] at h
              simp only [Except.ok.injEq, Prod.mk.injEq] at h
              have hm : expiry_matches today n = false := by
                simp [expiry_matches, hty, hcond.1, hcond.2, hfm, hde, hlk, hlt]
              rw [hm]
              simp only [if_false, Bool.false_eq_true]
              exact ⟨h.1.symm, by rw [← h.2, expiry_entry, hm]; simp⟩
    · rw [if_neg hcond] at h
      simp only [Except.ok.injEq, Prod.mk.injEq] at h
      have hm : expiry_matches today n = false := by
        simp only [expiry_matches, hty]
        by_cases ht0 : t0 = "accessrestrict"
        · have hp : n.publish = false := by
            cases hp0 : n.publish
            · rfl
            · exact absurd ⟨ht0, hp0⟩ hcond
          simp [hp]
        · simp [ht0]
      rw [hm]
      simp only [if_false, Bool.false_eq_true]
      exact ⟨h.1.symm, by rw [← h.2, expiry_entry, hm]; simp⟩

theorem expiry_notes_ok {today uri : String} {ao : Record} {ns ns1 : List Note}
    {ch : Bool} {log : List LogEntry}
    (h : expiry_notes today uri ao ns = Except.ok (ns1, ch, log)) :
    ns1 = ns.map (fun n => if expiry_matches today n then { n with publish := false } else n) ∧
    log = ns.filterMap (fun n => expiry_entry today uri ao n) ∧
    (ch = false ↔ log = []) := by
  induction ns generalizing ns1 ch log with
  | nil =>
    rw [expiry_notes] at h
    simp only [Except.ok.injEq, Prod.mk.injEq] at h
    obtain ⟨h1, h2, h3⟩ := h
    subst h1 h2 h3
    simp
  | cons n rest ih =>
    rw [expiry_notes] at h
    cases hn : expiry_note today uri ao n with
    | error e0 =>
      rw [hn] at h
      exact absurd h (by simp)
    | ok p =>
      obtain ⟨n1, entry⟩ := p
      rw [hn] at h
      dsimp only at h
      cases hrest : expiry_notes today uri ao rest with
      | error e0 =>
        rw [hrest] at h
        exact absurd h (by simp)
      | ok q =>
        obtain ⟨rest1, ch0, log0⟩ := q
        rw [hrest] at h
        dsimp only at h
        simp only [Except.ok.injEq, Prod.mk.injEq] at h
        obtain ⟨hns1, hch, hlog⟩ := h
        obtain ⟨hmap, hfm, hiff⟩ := ih hrest
        obtain ⟨hn1, hentry⟩ := expiry_note_ok hn
        subst hns1 hch hlog hn1 hentry hmap hfm
        refine ⟨rfl, ?_, ?_⟩
        · rw [List.filterMap_cons]
          cases expiry_entry today uri ao n with
          | none => rfl
          | some l => rfl
        · cases he : expiry_entry today uri ao n with
          | none =>
            simp only [he, Option.isSome_none, Bool.false_or, List.filterMap_cons]
            exact hiff
          | some l =>
            simp [he, List.filterMap_cons]

theorem expiry_record_ok {b b1 : Backend} {today uri : String} {log : List LogEntry}
    (h : expiry_record b today uri = (b1, Except.ok log)) :
    ∃ ao,
      lookupR uri b.records = some ao ∧
      log = expiry_log_of today uri ao ∧
      b1.trees = b.trees ∧ b1.container_metadata = b.container_metadata ∧
      (log ≠ [] →
        b1.records = updateR uri
          { ao with notes := ao.notes.map (fun n =>
              if expiry_matches today n then { n with publish := false } else n) }
          b.records ∧
        b1.events = b.events ++ [Event.get uri, Event.post uri]) ∧
      (log = [] → b1.records = b.records ∧ b1.events = b.events ++ [Event.get uri]) := by
  rw [expiry_record, aspace_get] at h
  cases hget : lookupR uri b.records with
  | none =>
    rw [hget] at h
    exact absurd h (by simp)
  | some ao =>
    rw [hget] at h
    dsimp only at h
    cases hns : expiry_notes today uri ao ao.notes with
    | error e0 =>
      rw [hns] at h
      exact absurd h (by simp)
    | ok q =>
      obtain ⟨ns1, ch, log0⟩ := q
      rw [hns] at h
      dsimp only at h
      simp only [Prod.mk.injEq, Except.ok.injEq] at h
      obtain ⟨hb1, hlog⟩ := h
      obtain ⟨hmap, hfm, hiff⟩ := expiry_notes_ok hns
      subst hlog hmap hfm
      refine ⟨ao, rfl, rfl, ?_, ?_, ?_, ?_⟩
      · cases ch with
        | true => rw [← hb1]; simp [session_post]
        | false => rw [← hb1]; simp
      · cases ch with
        | true => rw [← hb1]; simp [session_post]
        | false => rw [← hb1]; simp
      · intro hne
        cases ch with
        | true =>
          rw [← hb1]
          simp [session_post]
        | false =>
          exact absurd (hiff.mp rfl) hne
      · intro hz
        cases ch with
        | true =>
          have : (true : Bool) = false := hiff.mpr hz
          exact absurd this (by simp)
        | false =>
          rw [← hb1]
          simp

theorem expiry_record_other {b b1 : Backend} {today uri : String}
    {log : List LogEntry} (h : expiry_record b today uri = (b1, Except.ok log))
    (v : String) (hv : v ≠ uri) : lookupR v b1.records = lookupR v b.records := by
  obtain ⟨ao, _, _, _, _, hne, hz⟩ := expiry_record_ok h
  by_cases hl : log = []
  · rw [(hz hl).1]
  · rw [(hne hl).1, lookupR_updateR_other _ _ _ _ hv]

theorem expiry_sweep_log {today : String} {uris : List String} :
    ∀ {b b1 : Backend} {log : List LogEntry}, uris.Nodup →
    expiry_sweep b today uris = (b1, Except.ok log) →
    log = (uris.map (fun u =>
      match lookupR u b.records with
      | some ao => expiry_log_of today u ao
      | none => [])).flatten := by
  induction uris with
  | nil =>
    intro b b1 log _ h
    rw [expiry_sweep] at h
    simp only [Prod.mk.injEq, Except.ok.injEq] at h
    rw [← h.2]
    simp
  | cons u rest ih =>
    intro b b1 log hnd h
    rw [expiry_sweep] at h
    cases hrec : expiry_record b today u with
    | mk bm res =>
      rw [hrec] at h
      cases res with
      | error e0 =>
        dsimp only at h
        exact absurd h (by simp)
      | ok log1 =>
        dsimp only at h
        cases hrest : expiry_sweep bm today rest with
        | mk b2 res2 =>
          rw [hrest] at h
          cases res2 with
          | error e0 =>
            dsimp only at h
            exact absurd h (by simp)
          | ok log2 =>
            dsimp only at h
            simp only [Prod.mk.injEq, Except.ok.injEq] at h
            obtain ⟨-, hlog⟩ := h
            obtain ⟨ao, hget, hlog1, _, _, _, _⟩ := expiry_record_ok hrec
            have hlog2 := ih (List.Nodup.of_cons hnd) hrest
            have hmaps : rest.map (fun v =>
                match lookupR v bm.records with
                | some ao => expiry_log_of today v ao
                | none => []) =
              rest.map (fun v =>
                match lookupR v b.records with
                | some ao => expiry_log_of today v ao
                | none => []) := by
              apply List.map_congr_left
              intro v hvmem
              have hvne : v ≠ u := by
                intro hvv
                subst hvv
                exact (List.nodup_cons.mp hnd).1 hvmem
              rw [expiry_record_other hrec v hvne]
            rw [← hlog, hlog1, hlog2, hmaps]
            simp [hget]

/-- C5: the expiry sweep's behavior, note by note, record by record, and over
the whole sweep.  A note is unpublished exactly when expiry_matches holds of
it — published accessrestrict whose first embedded date element's normal
attribute is lexically strictly before today — and otherwise (future-dated or
equal-dated included) it is returned unchanged with no log entry; a record
producing at least one log entry is written back exactly once (one post event
after its one get), a record producing none is not written; and the sweep's
log is the ordered concatenation, uri by uri in order, of one entry per
unpublished note in note order. -/
theorem c5_expiry_sweep_behavior :
    (∀ (today uri : String) (ao : Record) (n n1 : Note) (e : Option LogEntry),
      expiry_note today uri ao n = Except.ok (n1, e) →
      n1 = (if expiry_matches today n then { n with publish := false } else n) ∧
      e = expiry_entry today uri ao n) ∧
    (∀ (b b1 : Backend) (today uri : String) (log : List LogEntry),
      expiry_record b today uri = (b1, Except.ok log) →
      ∃ ao, lookupR uri b.records = some ao ∧ log = expiry_log_of today uri ao ∧
        (log ≠ [] → b1.events = b.events ++ [Event.get uri, Event.post uri]) ∧
        (log = [] → b1.records = b.records ∧
          b1.events = b.events ++ [Event.get uri])) ∧
    (∀ (b b1 : Backend) (today : String) (uris : List String) (log : List LogEntry),
      uris.Nodup →
      expiry_sweep b today uris = (b1, Except.ok log) →
      log = (uris.map (fun u =>
        match lookupR u b.records with
        | some ao => expiry_log_of today u ao
        | none => [])).flatten) := by
  refine ⟨?_, ?_, ?_⟩
  · intro today uri ao n n1 e h
    exact expiry_note_ok h
  · intro b b1 today uri log h
    obtain ⟨ao, hget, hlog, _, _, hne, hz⟩ := expiry_record_ok h
    exact ⟨ao, hget, hlog, fun hl => (hne hl).2, hz⟩
  · intro b b1 today uris log hnd h
    exact expiry_sweep_log hnd h

/-- C5 witness: the sweep over the concrete one-record backend on 2026-10-12
logs exactly the expired note's entry, which equals the declarative ordered
log; the future-dated note produces no entry. -/
theorem c5_expiry_sweep_behavior_witness :
    [c5_entry] = ((["/ao/E"].map (fun u =>
      match lookupR u c5_backend.records with
      | some ao => expiry_log_of "2026-10-12" u ao
      | none => [])).flatten) ∧
    ({ c5_future_note with publish := false } =
        (if expiry_matches "2026-10-12" c5_future_note
         then { c5_future_note with publish := false } else c5_future_note) →
      False) := by
  constructor
  · exact c5_expiry_sweep_behavior.2.2 c5_backend
      (expiry_sweep c5_backend "2026-10-12" ["/ao/E"]).1 "2026-10-12" ["/ao/E"]
      [c5_entry] (by decide) (by rfl)
  · intro hcontra
    have h1 := c5_expiry_sweep_behavior.1 "2026-10-12" "/ao/E" c5_record c5_future_note
      c5_future_note none (by rfl)
    rw [← h1.1] at hcontra
    have : ({ c5_future_note with publish := false } : Note).publish =
        c5_future_note.publish := by rw [← hcontra]
    simp [c5_future_note] at this

theorem expiry_record_first_note_err {b : Backend} {today uri : String} {ao : Record}
    {n : Note} {rest : List Note}
    (hget : lookupR uri b.records = some ao) (hn : ao.notes = n :: rest)
    (hty : n.type = some "accessrestrict") (hpub : n.publish = true)
    (hfm : format_note n = Except.error PyError.indexError) :
    (expiry_record b today uri).2 = Except.error PyError.indexError := by
  rw [expiry_record, aspace_get, hget]
  dsimp only
  rw [hn, expiry_notes, expiry_note, hty]
  dsimp only
  rw [if_pos ⟨rfl, hpub⟩, hfm]

theorem text_record_first_note_err {b : Backend} {target uri : String} {ao : Record}
    {n : Note} {rest : List Note}
    (hget : lookupR uri b.records = some ao) (hn : ao.notes = n :: rest)
    (hty : n.type = some "accessrestrict") (hpub : n.publish = true)
    (hfm : format_note n = Except.error PyError.indexError) :
    (text_record b target uri).2 = Except.error PyError.indexError := by
  rw [text_record, aspace_get, hget]
  dsimp only
  rw [hn, text_notes, text_note, hty]
  dsimp only
  rw [if_pos ⟨rfl, hpub⟩, hfm]

/-- C10: format_note is partial exactly at empty content or subnotes.  It
succeeds iff a singlepart note has non-empty content (returning the first
content item) or a non-singlepart note has non-empty subnotes (returning the
first subnote's content); it raises IndexError iff the respective list is
empty; and each restriction sweep, which formats every published
accessrestrict note it meets, aborts with that IndexError on a record whose
first note is a published accessrestrict with the empty list. -/
theorem c10_format_note_partiality :
    (∀ (n : Note) (v : Markup), format_note n = Except.ok v ↔
      ((n.jsonmodel_type = "note_singlepart" ∧ ∃ cs, n.content = v :: cs) ∨
       (n.jsonmodel_type ≠ "note_singlepart" ∧
         ∃ s ss, n.subnotes = s :: ss ∧ v = s.content))) ∧
    (∀ n : Note, format_note n = Except.error PyError.indexError ↔
      ((n.jsonmodel_type = "note_singlepart" ∧ n.content = []) ∨
       (n.jsonmodel_type ≠ "note_singlepart" ∧ n.subnotes = []))) ∧
    (∀ (b : Backend) (today uri : String) (ao : Record) (n : Note) (rest : List Note)
        (more : List String),
      lookupR uri b.records = some ao → ao.notes = n :: rest →
      n.type = some "accessrestrict" → n.publish = true →
      format_note n = Except.error PyError.indexError →
      (expiry_sweep b today (uri :: more)).2 = Except.error PyError.indexError) ∧
    (∀ (b : Backend) (target uri : String) (ao : Record) (n : Note) (rest : List Note)
        (more : List String),
      lookupR uri b.records = some ao → ao.notes = n :: rest →
      n.type = some "accessrestrict" → n.publish = true →
      format_note n = Except.error PyError.indexError →
      (text_sweep b target (uri :: more)).2 = Except.error PyError.indexError) := by
  refine ⟨?_, ?_, ?_, ?_⟩
  · intro n v
    rw [format_note]
    by_cases hj : n.jsonmodel_type = "note_singlepart"
    · cases hc : n.content with
      | nil => simp [hj, hc]
      | cons c cs => simp [hj, hc, eq_comm]
    · cases hs : n.subnotes with
      | nil => simp [hj, hs]
      | cons s ss => simp [hj, hs, eq_comm]
  · intro n
    rw [format_note]
    by_cases hj : n.jsonmodel_type = "note_singlepart"
    · rw [if_pos hj]
      cases hc : n.content with
      | nil => simp [hj]
      | cons c cs => simp [hj]
    · rw [if_neg hj]
      cases hs : n.subnotes with
      | nil => simp [hj]
      | cons s ss => simp [hj]
  · intro b today uri ao n rest more hget hn hty hpub hfm
    rw [expiry_sweep]
    cases hrec : expiry_record b today uri with
    | mk bm res =>
      have := @expiry_record_first_note_err b today uri ao n rest hget hn hty hpub hfm
      rw [hrec] at this
      dsimp only at this
      rw [this]
  · intro b target uri ao n rest more hget hn hty hpub hfm
    rw [text_sweep]
    cases hrec : text_record b target uri with
    | mk bm res =>
      have := @text_record_first_note_err b target uri ao n rest hget hn hty hpub hfm
      rw [hrec] at this
      dsimp only at this
      rw [this]

theorem lookupR_mem {u : String} {r : Record} {l : List (String × Record)}
    (h : lookupR u l = some r) : (u, r) ∈ l := by
  induction l with
  | nil => simp [lookupR] at h
  | cons p rest ih =>
    obtain ⟨k, v⟩ := p
    rw [lookupR] at h
    by_cases hk : k = u
    · rw [if_pos hk] at h
      subst hk
      rw [Option.some.inj h]
      simp
    · rw [if_neg hk] at h
      simp [ih h]

theorem mem_updateR {u : String} {r : Record} {l : List (String × Record)}
    {p : String × Record} (h : p ∈ updateR u r l) : p = (u, r) ∨ p ∈ l := by
  induction l with
  | nil =>
    rw [updateR] at h
    simp at h
    exact Or.inl h
  | cons q rest ih =>
    obtain ⟨k, v⟩ := q
    rw [updateR] at h
    by_cases hk : k = u
    · rw [if_pos hk] at h
      rcases List.mem_cons.mp h with h | h
      · exact Or.inl h
      · exact Or.inr (by simp [h])
    · rw [if_neg hk] at h
      rcases List.mem_cons.mp h with h | h
      · exact Or.inr (by simp [h])
      · rcases ih h with h | h
        · exact Or.inl h
        · exact Or.inr (by simp [h])

theorem repoint_instances_ok {source target : String} {l l1 : List Instance}
    (h : repoint_instances source target l = Except.ok l1) :
    l1 = l.map (repoint_pure source target) := by
  induction l generalizing l1 with
  | nil =>
    rw [repoint_instances] at h
    simp only [Except.ok.injEq] at h
    rw [← h]
    rfl
  | cons i rest ih =>
    rw [repoint_instances] at h
    cases hr : i.top_container_ref with
    | none =>
      rw [hr] at h
      exact absurd h (by simp)
    | some r0 =>
      rw [hr] at h
      dsimp only at h
      cases hrest : repoint_instances source target rest with
      | error e0 =>
        rw [hrest] at h
        exact absurd h (by simp)
      | ok rest1 =>
        rw [hrest] at h
        dsimp only at h
        simp only [Except.ok.injEq] at h
        rw [← h, ih hrest, List.map_cons]
        rw [repoint_pure, hr]

theorem repoint_pure_idem {source target : String} (hst : source ≠ target)
    (i : Instance) :
    repoint_pure source target (repoint_pure source target i) =
      repoint_pure source target i := by
  cases hr : i.top_container_ref with
  | none => simp [repoint_pure, hr]
  | some r0 =>
    by_cases hs : r0 = source
    · simp [repoint_pure, hr, hs, Ne.symm hst]
    · simp [repoint_pure, hr, hs]

theorem repoint_pure_noref {source target : String} (i : Instance)
    (h : ¬ i.top_container_ref = some source) : repoint_pure source target i = i := by
  cases hr : i.top_container_ref with
  | none => simp [repoint_pure, hr]
  | some r0 =>
    have hs : r0 ≠ source := by
      intro hh
      rw [hh] at hr
      exact h hr
    simp [repoint_pure, hr, hs]

theorem repoint_pure_no_source {source target : String} (hst : source ≠ target)
    (i : Instance) :
    ¬ (repoint_pure source target i).top_container_ref = some source := by
  cases hr : i.top_container_ref with
  | none => simp [repoint_pure, hr]
  | some r0 =>
    by_cases hs : r0 = source
    · simp [repoint_pure, hr, hs, Ne.symm hst]
    · simp [repoint_pure, hr, hs]

theorem merge_loop_ok {source target : String} (hst : source ≠ target)
    {uris : List String} :
    ∀ {b b1 : Backend},
    (∀ p ∈ b.records, p.2.uri = p.1) →
    merge_loop source target b uris = (b1, Except.ok ()) →
    (∀ v, v ∉ uris → lookupR v b1.records = lookupR v b.records) ∧
    (∀ v ∈ uris, ∃ r, lookupR v b.records = some r ∧
      lookupR v b1.records =
        some { r with instances := r.instances.map (repoint_pure source target) }) ∧
    b1.trees = b.trees ∧ b1.container_metadata = b.container_metadata ∧
    b1.events = b.events ++ (uris.map (fun u => [Event.get u, Event.post u])).flatten ∧
    (∀ p ∈ b1.records, p.2.uri = p.1) := by
  induction uris with
  | nil =>
    intro b b1 hwf h
    rw [merge_loop] at h
    simp only [Prod.mk.injEq] at h
    rw [← h.1]
    exact ⟨fun v _ => rfl, by simp, rfl, rfl, by simp, hwf⟩
  | cons u rest ih =>
    intro b b1 hwf h
    rw [merge_loop, aspace_get] at h
    cases hget : lookupR u b.records with
    | none =>
      rw [hget] at h
      exact absurd h (by simp)
    | some ao =>
      rw [hget] at h
      dsimp only at h
      cases hrp : repoint_instances source target ao.instances with
      | error e0 =>
        rw [hrp] at h
        exact absurd h (by simp)
      | ok insts =>
        rw [hrp] at h
        dsimp only at h
        have hao_uri : ao.uri = u := hwf (u, ao) (lookupR_mem hget)
        rw [update_aspace_object, if_pos (by exact hao_uri.symm)] at h
        dsimp only at h
        set ao1 : Record := { ao with instances := insts } with hao1
        have hwf2 : ∀ p ∈ (session_post { b with
            events := b.events ++ [Event.get u] } u ao1).records, p.2.uri = p.1 := by
          intro p hp
          simp only [session_post] at hp
          rcases mem_updateR hp with hp | hp
          · rw [hp]
            exact hao_uri
          · exact hwf p hp
        obtain ⟨ihout, ihin, ihtrees, ihmeta, ihevents, ihwf⟩ := ih hwf2 h
        have hmid_lookup_self : lookupR u (session_post { b with
            events := b.events ++ [Event.get u] } u ao1).records = some ao1 := by
          simp [session_post, lookupR_updateR_self]
        have hmid_lookup_other : ∀ v, v ≠ u → lookupR v (session_post { b with
            events := b.events ++ [Event.get u] } u ao1).records = lookupR v b.records := by
          intro v hv
          simp [session_post, lookupR_updateR_other _ _ _ _ hv]
        have hinst : insts = ao.instances.map (repoint_pure source target) :=
          repoint_instances_ok hrp
        refine ⟨?_, ?_, ?_, ?_, ?_, ihwf⟩
        · intro v hv
          have hv1 : v ≠ u := fun hh => hv (by simp [hh])
          have hv2 : v ∉ rest := fun hh => hv (by simp [hh])
          rw [ihout v hv2, hmid_lookup_other v hv1]
        · intro v hv
          rcases List.mem_cons.mp hv with hv | hv
          · subst hv
            by_cases hvr : v ∈ rest
            · obtain ⟨r, hr1, hr2⟩ := ihin v hvr
              rw [hmid_lookup_self] at hr1
              refine ⟨ao, hget, ?_⟩
              rw [hr2, ← Option.some.inj hr1, hao1]
              simp only [List.map_map]
              have : (repoint_pure source target) ∘ (repoint_pure source target) =
                  repoint_pure source target := by
                funext i
                exact repoint_pure_idem hst i
              rw [hinst, List.map_map, this]
            · refine ⟨ao, hget, ?_⟩
              rw [ihout v hvr, hmid_lookup_self, hao1, hinst]
          · obtain ⟨r, hr1, hr2⟩ := ihin v hv
            by_cases hvu : v = u
            · subst hvu
              rw [hmid_lookup_self] at hr1
              refine ⟨ao, hget, ?_⟩
              rw [hr2, ← Option.some.inj hr1, hao1]
              have : (repoint_pure source target) ∘ (repoint_pure source target) =
                  repoint_pure source target := by
                funext i
                exact repoint_pure_idem hst i
              rw [hinst, List.map_map, this]
            · rw [hmid_lookup_other v hvu] at hr1
              exact ⟨r, hr1, hr2⟩
        · rw [ihtrees]
          simp [session_post]
        · rw [ihmeta]
          simp [session_post]
        · rw [ihevents]
          simp [session_post]

/-- C4: merging repoints every source-referencing instance of every archival
object the metadata lookup returned, writes each whole record back, and
deletes the source container last.  Given a well-keyed backend, a metadata
answer covering every record that references the source container, distinct
source and target uris, and a successful merge: the source container is gone;
no remaining record carries an instance referencing it; every looked-up
record was rewritten by the per-instance repoint map (which leaves instances
not referencing the source unchanged); every other record is untouched; and
the request log shows the delete strictly after all the per-record get/post
pairs. -/
theorem c4_merge_top_containers {b b1 : Backend} {source_id target_id : Nat}
    {uris : List String}
    (hwf : ∀ p ∈ b.records, p.2.uri = p.1)
    (hmeta : lookupN source_id b.container_metadata = some uris)
    (hcomplete : ∀ p ∈ b.records,
      (∃ i ∈ p.2.instances, i.top_container_ref = some (top_container_uri source_id)) →
      p.1 ∈ uris)
    (hst : top_container_uri source_id ≠ top_container_uri target_id)
    (hmerge : merge_top_containers b source_id target_id = (b1, Except.ok ())) :
    lookupR (top_container_uri source_id) b1.records = none ∧
    (∀ u r1, lookupR u b1.records = some r1 →
      ∀ i ∈ r1.instances, ¬ i.top_container_ref = some (top_container_uri source_id)) ∧
    (∀ u ∈ uris, u ≠ top_container_uri source_id →
      ∃ r, lookupR u b.records = some r ∧
        lookupR u b1.records = some { r with instances := r.instances.map (repoint_pure
          (top_container_uri source_id) (top_container_uri target_id)) }) ∧
    (∀ u, u ∉ uris → u ≠ top_container_uri source_id →
      lookupR u b1.records = lookupR u b.records) ∧
    (∀ i : Instance, ¬ i.top_container_ref = some (top_container_uri source_id) →
      repoint_pure (top_container_uri source_id) (top_container_uri target_id) i = i) ∧
    b1.events = b.events ++ [Event.get (container_metadata_uri source_id)] ++
      (uris.map (fun u => [Event.get u, Event.post u])).flatten ++
      [Event.delete (top_container_uri source_id)] := by
  rw [merge_top_containers, get_metadata_for_container, hmeta] at hmerge
  dsimp only at hmerge
  cases hloop : merge_loop (top_container_uri source_id) (top_container_uri target_id)
      { b with events := b.events ++ [Event.get (container_metadata_uri source_id)] }
      uris with
  | mk b2 res =>
    rw [hloop] at hmerge
    cases res with
    | error e0 =>
      dsimp only at hmerge
      exact absurd hmerge (by simp)
    | ok u0 =>
      dsimp only at hmerge
      rw [aspace_delete] at hmerge
      cases hdel : lookupR (top_container_uri source_id) b2.records with
      | none =>
        rw [hdel] at hmerge
        exact absurd hmerge (by simp)
      | some rdel =>
        rw [hdel] at hmerge
        dsimp only at hmerge
        simp only [Prod.mk.injEq] at hmerge
        obtain ⟨hb1, -⟩ := hmerge
        obtain ⟨lout, lin, ltrees, lmeta, levents, lwf⟩ :=
          @merge_loop_ok (top_container_uri source_id) (top_container_uri target_id)
            hst uris { b with
              events := b.events ++ [Event.get (container_metadata_uri source_id)] }
            b2 (fun p hp => hwf p hp) hloop
        have hrecords1 : b1.records = removeR (top_container_uri source_id) b2.records := by
          rw [← hb1]
        have hother : ∀ u, u ≠ top_container_uri source_id →
            lookupR u b1.records = lookupR u b2.records := by
          intro u hu
          rw [hrecords1, lookupR_removeR_other _ _ _ hu]
        refine ⟨?_, ?_, ?_, ?_, ?_, ?_⟩
        · rw [hrecords1, lookupR_removeR_self]
        · intro u r1 hr1 i hi
          by_cases hu : u = top_container_uri source_id
          · subst hu
            rw [hrecords1, lookupR_removeR_self] at hr1
            exact absurd hr1 (by simp)
          · rw [hother u hu] at hr1
            by_cases huin : u ∈ uris
            · obtain ⟨r, -, hr2⟩ := lin u huin
              rw [hr1] at hr2
              have hre := Option.some.inj hr2
              rw [hre] at hi
              dsimp only at hi
              simp only [List.mem_map] at hi
              obtain ⟨i0, -, hi0⟩ := hi
              rw [← hi0]
              exact repoint_pure_no_source hst i0
            · rw [lout u huin] at hr1
              have hmem := lookupR_mem hr1
              have := hcomplete (u, r1) hmem
              intro hcontra
              exact huin (this ⟨i, hi, hcontra⟩)
        · intro u huin hu
          obtain ⟨r, hr1, hr2⟩ := lin u huin
          refine ⟨r, hr1, ?_⟩
          rw [hother u hu]
          exact hr2
        · intro u huin hu
          rw [hother u hu, lout u huin]
        · intro i hi
          exact repoint_pure_noref i hi
        · rw [← hb1]
          dsimp only
          rw [levents]

theorem pySetAux_nodup (l : List String) :
    ∀ seen : List String, (pySetAux seen l).Nodup ∧
      (∀ x, x ∈ pySetAux seen l ↔ x ∈ l ∧ x ∉ seen) := by
  induction l with
  | nil =>
    intro seen
    constructor
    · simp [pySetAux]
    · intro x
      simp [pySetAux]
  | cons y rest ih =>
    intro seen
    rw [pySetAux]
    by_cases hy : y ∈ seen
    · rw [if_pos hy]
      obtain ⟨ihn, ihm⟩ := ih seen
      constructor
      · exact ihn
      · intro x
        rw [ihm x]
        constructor
        · intro ⟨hx1, hx2⟩
          exact ⟨by simp [hx1], hx2⟩
        · intro ⟨hx1, hx2⟩
          rcases List.mem_cons.mp hx1 with hx1 | hx1
          · subst hx1
            exact absurd hy hx2
          · exact ⟨hx1, hx2⟩
    · rw [if_neg hy]
      obtain ⟨ihn, ihm⟩ := ih (y :: seen)
      constructor
      · rw [List.nodup_cons]
        constructor
        · intro hmem
          exact ((ihm y).mp hmem).2 (by simp)
        · exact ihn
      · intro x
        rw [List.mem_cons, ihm x]
        constructor
        · intro hx
          rcases hx with hx | ⟨hx1, hx2⟩
          · subst hx
            exact ⟨by simp, hy⟩
          · exact ⟨by simp [hx1], fun hs => hx2 (by simp [hs])⟩
        · intro ⟨hx1, hx2⟩
          rcases List.mem_cons.mp hx1 with hx1 | hx1
          · exact Or.inl hx1
          · by_cases hxy : x = y
            · exact Or.inl hxy
            · exact Or.inr ⟨hx1, fun hs => by
                rcases List.mem_cons.mp hs with hs | hs
                · exact hxy hs
                · exact hx2 hs⟩

theorem pySet_nodup (l : List String) : (pySet l).Nodup := by
  exact (pySetAux_nodup l []).1

theorem pySet_mem (l : List String) : ∀ x, x ∈ pySet l ↔ x ∈ l := by
  intro x
  rw [pySet, (pySetAux_nodup l []).2 x]
  simp

theorem deletableB_congr {b b1 : Backend} {v : String}
    (h : lookupR v b1.records = lookupR v b.records) :
    deletableB b1 v = deletableB b v := by
  rw [deletableB, deletableB, h]

theorem delete_single_ok {b b1 : Backend} {u : String}
    (h : delete_single_resource_instances b u = (b1, Except.ok ())) :
    (∀ v, lookupR v b1.records =
      if v = u ∧ deletableB b u = true then none else lookupR v b.records) ∧
    b1.trees = b.trees ∧ b1.container_metadata = b.container_metadata := by
  rw [delete_single_resource_instances] at h
  by_cases hdig : strContains u "digital_objects" = true
  · rw [if_pos hdig, aspace_get] at h
    cases hget : lookupR u b.records with
    | none =>
      rw [hget] at h
      exact absurd h (by simp)
    | some r =>
      rw [hget] at h
      dsimp only at h
      cases hli : r.linked_instances with
      | none =>
        rw [hli] at h
        exact absurd h (by simp)
      | some li =>
        rw [hli] at h
        dsimp only at h
        by_cases hlen : li.length = 1
        · rw [if_pos hlen, aspace_delete] at h
          dsimp only at h
          rw [hget] at h
          dsimp only at h
          simp only [Prod.mk.injEq] at h
          obtain ⟨hb1, -⟩ := h
          have hdel : deletableB b u = true := by
            simp [deletableB, hdig, hget, hli, hlen]
          refine ⟨?_, by rw [← hb1], by rw [← hb1]⟩
          intro v
          by_cases hv : v = u
          · subst hv
            rw [if_pos ⟨rfl, hdel⟩, ← hb1]
            dsimp only
            rw [lookupR_removeR_self]
          · rw [if_neg (fun hh => hv hh.1), ← hb1]
            dsimp only
            rw [lookupR_removeR_other _ _ _ hv]
        · rw [if_neg hlen] at h
          simp only [Prod.mk.injEq] at h
          obtain ⟨hb1, -⟩ := h
          have hdel : deletableB b u = false := by
            simp [deletableB, hdig, hget, hli, hlen]
          refine ⟨?_, by rw [← hb1], by rw [← hb1]⟩
          intro v
          rw [hdel]
          simp only [Bool.false_eq_true, and_false, if_false]
          rw [← hb1]
  · rw [if_neg hdig] at h
    by_cases htop : strContains u "top_containers" = true
    · rw [if_pos htop, aspace_get] at h
      cases hget : lookupR u b.records with
      | none =>
        rw [hget] at h
        exact absurd h (by simp)
      | some r =>
        rw [hget] at h
        dsimp only at h
        cases hcol : r.collection with
        | none =>
          rw [hcol] at h
          exact absurd h (by simp)
        | some col =>
          rw [hcol] at h
          dsimp only at h
          by_cases hlen : col.length = 1
          · rw [if_pos hlen, aspace_delete] at h
            dsimp only at h
            rw [hget] at h
            dsimp only at h
            simp only [Prod.mk.injEq] at h
            obtain ⟨hb1, -⟩ := h
            have hdel : deletableB b u = true := by
              simp [deletableB, hdig, htop, hget, hcol, hlen]
            refine ⟨?_, by rw [← hb1], by rw [← hb1]⟩
            intro v
            by_cases hv : v = u
            · subst hv
              rw [if_pos ⟨rfl, hdel⟩, ← hb1]
              dsimp only
              rw [lookupR_removeR_self]
            · rw [if_neg (fun hh => hv hh.1), ← hb1]
              dsimp only
              rw [lookupR_removeR_other _ _ _ hv]
          · rw [if_neg hlen] at h
            simp only [Prod.mk.injEq] at h
            obtain ⟨hb1, -⟩ := h
            have hdel : deletableB b u = false := by
              simp [deletableB, hdig, htop, hget, hcol, hlen]
            refine ⟨?_, by rw [← hb1], by rw [← hb1]⟩
            intro v
            rw [hdel]
            simp only [Bool.false_eq_true, and_false, if_false]
            rw [← hb1]
    · rw [if_neg htop] at h
      simp only [Prod.mk.injEq] at h
      obtain ⟨hb1, -⟩ := h
      have hdel : deletableB b u = false := by
        rw [deletableB, if_neg hdig, if_neg htop]
      refine ⟨?_, by rw [← hb1], by rw [← hb1]⟩
      intro v
      rw [hdel]
      simp only [Bool.false_eq_true, and_false, if_false]
      rw [← hb1]

theorem delete_instance_loop_ok {l : List String} :
    ∀ {b b1 : Backend}, l.Nodup →
    delete_instance_loop b l = (b1, Except.ok ()) →
    (∀ v, lookupR v b1.records =
      if v ∈ l ∧ deletableB b v = true then none else lookupR v b.records) ∧
    b1.trees = b.trees ∧ b1.container_metadata = b.container_metadata := by
  induction l with
  | nil =>
    intro b b1 _ h
    rw [delete_instance_loop] at h
    simp only [Prod.mk.injEq] at h
    obtain ⟨hb1, -⟩ := h
    rw [← hb1]
    exact ⟨by simp, rfl, rfl⟩
  | cons u rest ih =>
    intro b b1 hnd h
    rw [delete_instance_loop] at h
    cases hdel : delete_single_resource_instances b u with
    | mk bm res =>
      rw [hdel] at h
      cases res with
      | error e0 =>
        dsimp only at h
        exact absurd h (by simp)
      | ok u0 =>
        obtain ⟨⟩ := u0
        dsimp only at h
        obtain ⟨hone, htrees0, hmeta0⟩ := delete_single_ok hdel
        obtain ⟨ihchar, ihtrees, ihmeta⟩ := ih (List.Nodup.of_cons hnd) h
        have hmidother : ∀ v, v ≠ u → lookupR v bm.records = lookupR v b.records := by
          intro v hv
          rw [hone v, if_neg (fun hh => hv hh.1)]
        refine ⟨?_, by rw [ihtrees, htrees0], by rw [ihmeta, hmeta0]⟩
        intro v
        by_cases hvrest : v ∈ rest
        · have hvu : v ≠ u := by
            intro hh
            subst hh
            exact (List.nodup_cons.mp hnd).1 hvrest
          rw [ihchar v, deletableB_congr (hmidother v hvu)]
          by_cases hdv : deletableB b v = true
          · rw [if_pos ⟨hvrest, hdv⟩, if_pos ⟨by simp [hvrest], hdv⟩]
          · rw [if_neg (fun hh => hdv hh.2), if_neg (fun hh => hdv hh.2),
              hmidother v hvu]
        · rw [ihchar v, if_neg (fun hh => hvrest hh.1), hone v]
          by_cases hvu : v = u
          · subst hvu
            by_cases hdv : deletableB b v = true
            · rw [if_pos ⟨rfl, hdv⟩, if_pos ⟨by simp, hdv⟩]
            · rw [if_neg (fun hh => hdv hh.2), if_neg (fun hh => hdv hh.2)]
          · rw [if_neg (fun hh => hvu hh.1)]
            rw [if_neg (fun hh => by
              rcases List.mem_cons.mp hh.1 with hm | hm
              · exact hvu hm
              · exact hvrest hm)]

theorem find_instance_uris_records {b b1 : Backend} {u : String}
    {it : Option String} {out : List String}
    (h : find_instance_uris b u it = (b1, Except.ok out)) :
    b1.records = b.records ∧ b1.trees = b.trees ∧
    b1.container_metadata = b.container_metadata := by
  rw [find_instance_uris, aspace_get] at h
  cases hget : lookupR u b.records with
  | none =>
    rw [hget] at h
    exact absurd h (by simp)
  | some r =>
    rw [hget] at h
    dsimp only at h
    simp only [Prod.mk.injEq] at h
    obtain ⟨hb1, -⟩ := h
    rw [← hb1]
    exact ⟨rfl, rfl, rfl⟩

theorem collect_children_records {us : List String} :
    ∀ {b b1 : Backend} {out : List String},
    collect_children_instance_uris b us = (b1, Except.ok out) →
    b1.records = b.records ∧ b1.trees = b.trees ∧
    b1.container_metadata = b.container_metadata := by
  induction us with
  | nil =>
    intro b b1 out h
    rw [collect_children_instance_uris] at h
    simp only [Prod.mk.injEq] at h
    obtain ⟨hb1, -⟩ := h
    rw [← hb1]
    exact ⟨rfl, rfl, rfl⟩
  | cons u rest ih =>
    intro b b1 out h
    rw [collect_children_instance_uris] at h
    cases hf : find_instance_uris b u none with
    | mk bm res =>
      rw [hf] at h
      cases res with
      | error e0 =>
        dsimp only at h
        exact absurd h (by simp)
      | ok l1 =>
        dsimp only at h
        cases hrest : collect_children_instance_uris bm rest with
        | mk b2 res2 =>
          rw [hrest] at h
          cases res2 with
          | error e0 =>
            dsimp only at h
            exact absurd h (by simp)
          | ok l2 =>
            dsimp only at h
            simp only [Prod.mk.injEq] at h
            obtain ⟨hb1, -⟩ := h
            obtain ⟨ha, hb, hc⟩ := find_instance_uris_records hf
            obtain ⟨hd, he, hf2⟩ := ih hrest
            rw [← hb1]
            exact ⟨hd.trans ha, he.trans hb, hf2.trans hc⟩

/-- C9: orphan association cleanup deduplicates and deletes only sole-owner
objects.  The deduplicated uri set is duplicate-free and has exactly the
members of the collected instance references; and after a successful run a
record is gone exactly when its uri is in that set and it was deletable — a
digital-object uri with linked_instances count one, or a top-container uri
with collection count one — while every other record, shared referenced
objects included, is untouched. -/
theorem c9_remove_resource_associations {w w1 : World} {rn : Nat}
    (h : remove_resource_associations w rn = (w1, Except.ok ())) :
    (∀ l : List String, (pySet l).Nodup ∧ (∀ x, x ∈ pySet l ↔ x ∈ l)) ∧
    ∃ children bt b2 instance_uris,
      get_resource_tree w.backend rn = (bt, Except.ok children) ∧
      collect_children_instance_uris bt
        (find_children_with_instances children w.defaults.find_default none) =
        (b2, Except.ok instance_uris) ∧
      (∀ v, lookupR v w1.backend.records =
        if v ∈ pySet instance_uris ∧ deletableB w.backend v = true then none
        else lookupR v w.backend.records) := by
  refine ⟨fun l => ⟨pySet_nodup l, pySet_mem l⟩, ?_⟩
  rw [remove_resource_associations] at h
  cases hg : get_resource_tree w.backend rn with
  | mk bt res =>
    rw [hg] at h
    cases res with
    | error e0 =>
      dsimp only at h
      exact absurd h (by simp)
    | ok children =>
      dsimp only [find_children_toplevel] at h
      cases hc : collect_children_instance_uris bt
          (find_children_with_instances children w.defaults.find_default none) with
      | mk b2 res2 =>
        rw [hc] at h
        cases res2 with
        | error e0 =>
          dsimp only at h
          exact absurd h (by simp)
        | ok instance_uris =>
          dsimp only at h
          cases hd : delete_instance_loop b2 (pySet instance_uris) with
          | mk b3 res3 =>
            rw [hd] at h
            dsimp only at h
            simp only [Prod.mk.injEq] at h
            obtain ⟨hw1, hres3⟩ := h
            cases res3 with
            | error e0 => exact absurd hres3 (by simp)
            | ok u0 =>
              refine ⟨children, bt, b2, instance_uris, rfl, hc, ?_⟩
              obtain ⟨hchar, -, -⟩ :=
                delete_instance_loop_ok (pySet_nodup instance_uris) hd
              have hb2rec : b2.records = w.backend.records := by
                obtain ⟨ha, -, -⟩ := collect_children_records hc
                have hbtrec : bt.records = w.backend.records := by
                  rw [get_resource_tree] at hg
                  cases ht : lookupN rn w.backend.trees with
                  | none =>
                    rw [ht] at hg
                    exact absurd hg (by simp)
                  | some t =>
                    rw [ht] at hg
                    dsimp only at hg
                    simp only [Prod.mk.injEq] at hg
                    rw [← hg.1]
                rw [ha, hbtrec]
              intro v
              have := hchar v
              rw [hb2rec] at this
              rw [← hw1]
              dsimp only
              rw [this]
              by_cases hin : v ∈ pySet instance_uris ∧ deletableB w.backend v = true
              · rw [if_pos ⟨hin.1, by
                  rw [@deletableB_congr w.backend b2 v (by rw [hb2rec])]
                  exact hin.2⟩, if_pos hin]
              · rw [if_neg (fun hh => hin ⟨hh.1, by
                  rw [← @deletableB_congr w.backend b2 v (by rw [hb2rec])]
                  exact hh.2⟩), if_neg hin]

/-- C9 witness: on the concrete world the sole-owner digital object and top
container are deleted (the duplicated reference notwithstanding), while the
shared digital object is untouched. -/
theorem c9_remove_resource_associations_witness :
    lookupR "/digital_objects/10"
      (remove_resource_associations c9_world 1).1.backend.records = none ∧
    lookupR "/top_containers/20"
      (remove_resource_associations c9_world 1).1.backend.records = none ∧
    lookupR "/digital_objects/11"
      (remove_resource_associations c9_world 1).1.backend.records =
      lookupR "/digital_objects/11" c9_world.backend.records := by
  obtain ⟨-, children, bt, b2, ius, hg, hc, hchar⟩ :=
    @c9_remove_resource_associations c9_world
      (remove_resource_associations c9_world 1).1 1 (by rfl)
  have hg2 : ((get_resource_tree c9_world.backend 1).1,
      (Except.ok c9_tree : Res TreeList)) = (bt, Except.ok children) := by
    rw [← hg]
    rfl
  simp only [Prod.mk.injEq, Except.ok.injEq] at hg2
  obtain ⟨hbt, hch⟩ := hg2
  rw [← hch] at hc
  rw [← hbt] at hc
  have hc2 : collect_children_instance_uris (get_resource_tree c9_world.backend 1).1
      (find_children_with_instances c9_tree c9_world.defaults.find_default none) =
      ((collect_children_instance_uris (get_resource_tree c9_world.backend 1).1
        (find_children_with_instances c9_tree c9_world.defaults.find_default none)).1,
       (Except.ok ["/digital_objects/10", "/digital_objects/11", "/digital_objects/10",
                  "/top_containers/20"] : Res (List String))) := by
    rfl
  rw [hc] at hc2
  simp only [Prod.mk.injEq, Except.ok.injEq] at hc2
  rw [hc2.2] at hchar
  have h10 := hchar "/digital_objects/10"
  have h20 := hchar "/top_containers/20"
  have h11 := hchar "/digital_objects/11"
  rw [if_pos ⟨by decide, by decide⟩] at h10 h20
  rw [if_neg (fun hh => by
    have := hh.2
    rw [show deletableB c9_world.backend "/digital_objects/11" = false from by decide]
      at this
    exact absurd this (by simp))] at h11
  exact ⟨h10, h20, h11⟩

/-- C4 witness: merging container 1 into container 2 on the concrete backend
leaves no source container, and the request log shows the metadata get, the
per-record get and post, and the delete last. -/
theorem c4_merge_top_containers_witness :
    lookupR (top_container_uri 1) (merge_top_containers c4_backend 1 2).1.records = none ∧
    (merge_top_containers c4_backend 1 2).1.events =
      c4_backend.events ++ [Event.get (container_metadata_uri 1)] ++
        ((["/ao/9"].map (fun u => [Event.get u, Event.post u])).flatten) ++
        [Event.delete (top_container_uri 1)] := by
  have h := @c4_merge_top_containers c4_backend
    (merge_top_containers c4_backend 1 2).1 1 2 ["/ao/9"]
    (by decide) rfl (by decide) (by decide) (by rfl)
  exact ⟨h.1, h.2.2.2.2.2⟩

/-- C10 witness: the empty-content note makes format_note and both sweeps
fail with IndexError at the concrete backend. -/
theorem c10_format_note_partiality_witness :
    format_note c10_note = Except.error PyError.indexError ∧
    (expiry_sweep c10_backend "2026-10-12" ["/ao/X"]).2 =
      Except.error PyError.indexError ∧
    (text_sweep c10_backend "Closed." ["/ao/X"]).2 =
      Except.error PyError.indexError := by
  refine ⟨?_, ?_, ?_⟩
  · exact (c10_format_note_partiality.2.1 c10_note).mpr (Or.inl ⟨rfl, rfl⟩)
  · exact c10_format_note_partiality.2.2.1 c10_backend "2026-10-12" "/ao/X" c10_record
      c10_note [] [] rfl rfl rfl rfl (by rfl)
  · exact c10_format_note_partiality.2.2.2 c10_backend "Closed." "/ao/X" c10_record
      c10_note [] [] rfl rfl rfl rfl (by rfl)

/-- C8 witness: the guard and the exact-match rule at concrete inputs — a
call with no text returns the report and the unchanged world, and the sweep
on a world whose note text differs from the target changes nothing. -/
theorem c8_text_sweep_guard_witness :
    unpublish_restrictions_by_text c7_world 1 none =
      (c7_world, Except.ok (TextSweepOut.message "No restriction text provided")) ∧
    (c7_note.publish = true ∧ c7_note.type = some "accessrestrict" ∧
      ∃ m, format_note c7_note = Except.ok m ∧ m.raw = "Closed." ∧
        { c7_note with publish := false } = { c7_note with publish := false }) := by
  constructor
  · exact c8_text_sweep_guard.1 c7_world 1 none rfl
  · exact c8_text_sweep_guard.2 "Closed." "/ao/1" c7_record c7_note
      { c7_note with publish := false }
      (some { uri := "/ao/1", title := "Folder 1",
              restriction := { raw := "Closed.", children := [] } })
      rfl (by decide)

end BhlAspace
